import Mathlib

/-!
Verification development for the mcp-multiplayer channel server.

The definitions below are a shallow embedding of `channel_manager.py`,
`bot_manager.py` and `multiplayer_server.py`: Python dataclasses become
structures, dicts become association lists, the mutable manager object
becomes explicit state passing, `raise ValueError(...)` becomes `Except`,
and the nondeterministic environment (timestamps from `datetime.utcnow`,
random ids from `secrets.token_urlsafe`) is threaded as explicit oracle
data (a tick counter, caller-supplied fresh strings).
-/

namespace Multiplayer

/-! ### JSON values and `json.dumps(..., sort_keys=True)`

Bot manifests are Python dicts (`Dict[str, Any]`); `compute_manifest_hash`
serializes them with `json.dumps(manifest, sort_keys=True)` and hashes the
resulting text.  `Json` models the values that can appear; `ser` models the
serializer output format (default separators `", "` and `": "`,
`ensure_ascii=True` escaping); `canon` models the recursive key sorting
performed by `sort_keys=True`. -/

inductive Json where
  | null : Json
  | bool (b : Bool) : Json
  | num (n : Int) : Json
  | str (s : String) : Json
  | arr (elems : List Json) : Json
  | obj (entries : List (String × Json)) : Json
deriving Repr

/-- Code-point lexicographic comparison of character lists, the order
Python uses to compare strings.  (Defined structurally so that it reduces
in the kernel; the core `String` order is byte-iterator based and does
not.) -/
def charListLe : List Char → List Char → Bool
  | [], _ => true
  | _ :: _, [] => false
  | a :: as, b :: bs =>
    if a.toNat < b.toNat then true
    else if b.toNat < a.toNat then false
    else charListLe as bs

def strLe (a b : String) : Bool := charListLe a.data b.data

theorem charListLe_total : ∀ xs ys : List Char,
    charListLe xs ys = true ∨ charListLe ys xs = true := by
  intro xs
  induction xs with
  | nil => intro ys; left; rfl
  | cons a as ih =>
    intro ys
    cases ys with
    | nil => right; rfl
    | cons b bs =>
      by_cases h1 : a.toNat < b.toNat
      · left; simp [charListLe, h1]
      · by_cases h2 : b.toNat < a.toNat
        · right; simp [charListLe, h2]
        · rcases ih bs with h | h
          · left; simp [charListLe, h1, h2, h]
          · right; simp [charListLe, h1, h2, h]

theorem charListLe_trans : ∀ xs ys zs : List Char,
    charListLe xs ys = true → charListLe ys zs = true → charListLe xs zs = true := by
  intro xs
  induction xs with
  | nil => intro ys zs _ _; rfl
  | cons a as ih =>
    intro ys zs h1 h2
    cases ys with
    | nil => simp [charListLe] at h1
    | cons b bs =>
      cases zs with
      | nil => simp [charListLe] at h2
      | cons c cs =>
        simp only [charListLe] at h1 h2 ⊢
        by_cases hab : a.toNat < b.toNat
        · by_cases hbc : b.toNat < c.toNat
          · simp [lt_trans hab hbc]
          · by_cases hcb : c.toNat < b.toNat
            · simp [if_neg hbc, if_pos hcb] at h2
            · have hac : a.toNat < c.toNat := by omega
              simp [hac]
        · by_cases hba : b.toNat < a.toNat
          · simp [if_neg hab, if_pos hba] at h1
          · simp only [if_neg hab, if_neg hba] at h1
            by_cases hbc : b.toNat < c.toNat
            · have hac : a.toNat < c.toNat := by omega
              simp [hac]
            · by_cases hcb : c.toNat < b.toNat
              · simp [if_neg hbc, if_pos hcb] at h2
              · simp only [if_neg hbc, if_neg hcb] at h2
                have h3 : ¬ a.toNat < c.toNat := by omega
                have h4 : ¬ c.toNat < a.toNat := by omega
                simp only [if_neg h3, if_neg h4]
                exact ih bs cs h1 h2

theorem charListLe_antisymm : ∀ xs ys : List Char,
    charListLe xs ys = true → charListLe ys xs = true → xs = ys := by
  intro xs
  induction xs with
  | nil =>
    intro ys _ h2
    cases ys with
    | nil => rfl
    | cons b bs => simp [charListLe] at h2
  | cons a as ih =>
    intro ys h1 h2
    cases ys with
    | nil => simp [charListLe] at h1
    | cons b bs =>
      simp only [charListLe] at h1 h2
      by_cases hab : a.toNat < b.toNat
      · simp [if_neg (by omega : ¬ b.toNat < a.toNat), if_pos hab] at h2
      · by_cases hba : b.toNat < a.toNat
        · simp [if_neg hab, if_pos hba] at h1
        · simp only [if_neg hab, if_neg hba] at h1 h2
          have hn : a.toNat = b.toNat := by omega
          have hv : a = b :=
            Char.eq_of_val_eq (UInt32.eq_of_val_eq (Fin.eq_of_val_eq hn))
          rw [hv, ih bs h1 h2]

theorem strLe_antisymm {a b : String} (h1 : strLe a b = true) (h2 : strLe b a = true) :
    a = b := by
  have h := charListLe_antisymm a.data b.data h1 h2
  cases a
  cases b
  exact congrArg String.mk h

/-- Key ordering used by `sort_keys=True` (CPython sorts `dict.items()`;
keys are unique in a dict so only the key matters). -/
def keyLe (a b : String × Json) : Prop := strLe a.1 b.1 = true

instance : DecidableRel keyLe := fun a b => inferInstanceAs (Decidable (strLe a.1 b.1 = true))

instance : IsTotal (String × Json) keyLe := ⟨fun a b => charListLe_total a.1.data b.1.data⟩

instance : IsTrans (String × Json) keyLe :=
  ⟨fun _ _ _ h h2 => charListLe_trans _ _ _ h h2⟩

mutual

def canon : Json → Json
  | .null => .null
  | .bool b => .bool b
  | .num n => .num n
  | .str s => .str s
  | .arr xs => .arr (canonList xs)
  | .obj kvs => .obj (List.insertionSort keyLe (canonKVs kvs))

def canonList : List Json → List Json
  | [] => []
  | x :: xs => canon x :: canonList xs

def canonKVs : List (String × Json) → List (String × Json)
  | [] => []
  | (k, v) :: rest => (k, canon v) :: canonKVs rest

end

/-- Lowercase hex digit, as produced by CPython's `\uXXXX` escapes. -/
def hexDigit (n : Nat) : Char := if n < 10 then Char.ofNat (48 + n) else Char.ofNat (87 + n)

def hex4 (n : Nat) : String :=
  String.mk [hexDigit (n / 4096 % 16), hexDigit (n / 256 % 16), hexDigit (n / 16 % 16),
    hexDigit (n % 16)]

/-- One character of a JSON string under `ensure_ascii=True`: the short
escapes, `\u00xx` for other control characters, `\uxxxx` for non-ASCII,
surrogate pairs above the BMP. -/
def escChar (c : Char) : String :=
  let n := c.toNat
  if n = 34 then "\\\""
  else if n = 92 then "\\\\"
  else if n = 10 then "\\n"
  else if n = 9 then "\\t"
  else if n = 13 then "\\r"
  else if n = 8 then "\\b"
  else if n = 12 then "\\f"
  else if n < 32 ∨ n > 126 then
    if n < 65536 then "\\u" ++ hex4 n
    else
      "\\u" ++ hex4 (55296 + (n - 65536) / 1024) ++ "\\u" ++ hex4 (56320 + (n - 65536) % 1024)
  else String.singleton c

def escString (s : String) : String := "\"" ++ String.join (s.data.map escChar) ++ "\""

mutual

def ser : Json → String
  | .null => "null"
  | .bool b => if b then "true" else "false"
  | .num n => toString n
  | .str s => escString s
  | .arr xs => "[" ++ serList xs ++ "]"
  | .obj kvs => "\x7b" ++ serKVs kvs ++ "\x7d"

def serList : List Json → String
  | [] => ""
  | [x] => ser x
  | x :: y :: xs => ser x ++ ", " ++ serList (y :: xs)

def serKVs : List (String × Json) → String
  | [] => ""
  | [(k, v)] => escString k ++ ": " ++ ser v
  | (k, v) :: p :: rest => escString k ++ ": " ++ ser v ++ ", " ++ serKVs (p :: rest)

end

/-- `json.dumps(manifest, sort_keys=True)` for a manifest dict. -/
def dumpsSorted (kvs : List (String × Json)) : String := ser (canon (.obj kvs))

/-! ### SHA-256 (`hashlib.sha256`), over `Nat` with explicit `% 2^32` -/

def m32 : Nat := 4294967296

def rotr32 (n x : Nat) : Nat := ((x >>> n) ||| (x <<< (32 - n))) % m32

def K256 : List Nat :=
  [1116352408, 1899447441, 3049323471, 3921009573, 961987163, 1508970993, 2453635748, 2870763221,
   3624381080, 310598401, 607225278, 1426881987, 1925078388, 2162078206, 2614888103, 3248222580,
   3835390401, 4022224774, 264347078, 604807628, 770255983, 1249150122, 1555081692, 1996064986,
   2554220882, 2821834349, 2952996808, 3210313671, 3336571891, 3584528711, 113926993, 338241895,
   666307205, 773529912, 1294757372, 1396182291, 1695183700, 1986661051, 2177026350, 2456956037,
   2730485921, 2820302411, 3259730800, 3345764771, 3516065817, 3600352804, 4094571909, 275423344,
   430227734, 506948616, 659060556, 883997877, 958139571, 1322822218, 1537002063, 1747873779,
   1955562222, 2024104815, 2227730452, 2361852424, 2428436474, 2756734187, 3204031479, 3329325298]

def H256 : List Nat :=
  [1779033703, 3144134277, 1013904242, 2773480762, 1359893119, 2600822924, 528734635, 1541459225]

/-- Big-endian byte expansion of `n` over `k` bytes. -/
def bytesBE (k n : Nat) : List Nat :=
  (List.range k).map (fun i => n / 2 ^ (8 * (k - 1 - i)) % 256)

/-- SHA-256 padding: `0x80`, zeros to 56 mod 64, 8-byte big-endian bit length. -/
def padMsg (msg : List Nat) : List Nat :=
  let L := msg.length
  msg ++ [128] ++ List.replicate ((119 - L % 64) % 64) 0 ++ bytesBE 8 (8 * L)

def chunks64 (l : List Nat) : List (List Nat) :=
  if l = [] then [] else l.take 64 :: chunks64 (l.drop 64)
termination_by l.length
decreasing_by
  simp only [List.length_drop]
  rename_i h
  have : l.length ≠ 0 := fun h0 => h (List.eq_nil_of_length_eq_zero h0)
  omega

def toWords : List Nat → List Nat
  | a :: b :: c :: d :: rest => (((a * 256 + b) * 256 + c) * 256 + d) :: toWords rest
  | _ => []

/-- Message-schedule extension from 16 to 64 words. -/
def schedule (w16 : List Nat) : List Nat :=
  (List.range 48).foldl
    (fun w _ =>
      let n := w.length
      let w15 := w.getD (n - 15) 0
      let w2 := w.getD (n - 2) 0
      let s0 := (rotr32 7 w15) ^^^ (rotr32 18 w15) ^^^ (w15 >>> 3)
      let s1 := (rotr32 17 w2) ^^^ (rotr32 19 w2) ^^^ (w2 >>> 10)
      w ++ [(w.getD (n - 16) 0 + s0 + w.getD (n - 7) 0 + s1) % m32])
    w16

def compressStep (st : List Nat) (kw : Nat × Nat) : List Nat :=
  match st with
  | [a, b, c, d, e, f, g, h] =>
    let S1 := (rotr32 6 e) ^^^ (rotr32 11 e) ^^^ (rotr32 25 e)
    let ch := (e &&& f) ^^^ ((m32 - 1 - e % m32) &&& g)
    let t1 := (h + S1 + ch + kw.1 + kw.2) % m32
    let S0 := (rotr32 2 a) ^^^ (rotr32 13 a) ^^^ (rotr32 22 a)
    let maj := (a &&& b) ^^^ (a &&& c) ^^^ (b &&& c)
    let t2 := (S0 + maj) % m32
    [(t1 + t2) % m32, a, b, c, (d + t1) % m32, e, f, g]
  | other => other

def sha256Chunk (h : List Nat) (chunk : List Nat) : List Nat :=
  let st := ((K256.zip (schedule (toWords chunk)))).foldl compressStep h
  (h.zip st).map (fun p => (p.1 + p.2) % m32)

def sha256Bytes (msg : List Nat) : List Nat :=
  (chunks64 (padMsg msg)).foldl sha256Chunk H256

/-- UTF-8 encoding of one character (`str.encode()` operates on UTF-8 bytes). -/
def utf8Char (c : Char) : List Nat :=
  let n := c.toNat
  if n < 128 then [n]
  else if n < 2048 then [192 ||| (n >>> 6), 128 ||| (n &&& 63)]
  else if n < 65536 then [224 ||| (n >>> 12), 128 ||| ((n >>> 6) &&& 63), 128 ||| (n &&& 63)]
  else [240 ||| (n >>> 18), 128 ||| ((n >>> 12) &&& 63), 128 ||| ((n >>> 6) &&& 63),
    128 ||| (n &&& 63)]

def strBytes (s : String) : List Nat := (s.data.map utf8Char).flatten

def toHex8 (n : Nat) : String := hex4 (n / 65536) ++ hex4 (n % 65536)

/-- `hashlib.sha256(text.encode()).hexdigest()`. -/
def sha256hex (s : String) : String := String.join ((sha256Bytes (strBytes s)).map toHex8)

/-! ### Equality of JSON values as Python dict values

`MEq j₁ j₂` holds exactly when the two values are equal as Python values
(`j₁ == j₂`): dict entry lists may be permuted at any nesting level
(Python dict equality ignores insertion order), everything else must
agree structurally.  Duplicate keys cannot occur in a Python dict, so the
permutation rule carries a `Nodup` side condition on keys. -/

inductive MEq : Json → Json → Prop where
  | null : MEq .null .null
  | bool (b : Bool) : MEq (.bool b) (.bool b)
  | num (n : Int) : MEq (.num n) (.num n)
  | str (s : String) : MEq (.str s) (.str s)
  | arrNil : MEq (.arr []) (.arr [])
  | arrCons {x y : Json} {xs ys : List Json} : MEq x y → MEq (.arr xs) (.arr ys) →
      MEq (.arr (x :: xs)) (.arr (y :: ys))
  | objNil : MEq (.obj []) (.obj [])
  | objCons {k : String} {v₁ v₂ : Json} {kvs₁ kvs₂ : List (String × Json)} :
      MEq v₁ v₂ → MEq (.obj kvs₁) (.obj kvs₂) →
      MEq (.obj ((k, v₁) :: kvs₁)) (.obj ((k, v₂) :: kvs₂))
  | objPerm {kvs₁ kvs₁' kvs₂ : List (String × Json)} :
      kvs₁.Perm kvs₁' → (kvs₁.map Prod.fst).Nodup → MEq (.obj kvs₁') (.obj kvs₂) →
      MEq (.obj kvs₁) (.obj kvs₂)

theorem canonKVs_eq_map (l : List (String × Json)) :
    canonKVs l = l.map (fun p => (p.1, canon p.2)) := by
  induction l with
  | nil => rfl
  | cons p rest ih => cases p; simp [canonKVs, ih]

theorem map_fst_canonKVs (l : List (String × Json)) :
    (canonKVs l).map Prod.fst = l.map Prod.fst := by
  induction l with
  | nil => rfl
  | cons p rest ih => cases p; simp [canonKVs, ih]

theorem pairwise_keyStrict_of_sorted_nodup {l : List (String × Json)}
    (hs : List.Pairwise keyLe l) (hnd : (l.map Prod.fst).Nodup) :
    List.Pairwise (fun a b : String × Json => keyLe a b ∧ a.1 ≠ b.1) l := by
  have hne : List.Pairwise (fun a b : String × Json => a.1 ≠ b.1) l :=
    List.pairwise_map.mp hnd
  exact hs.and hne

/-- Sorting by key sends key-nodup permutations to the same list: the core of
`sort_keys=True` canonicalization. -/
theorem insertionSort_eq_of_perm {l₁ l₂ : List (String × Json)}
    (hp : l₁.Perm l₂) (hnd : (l₁.map Prod.fst).Nodup) :
    List.insertionSort keyLe l₁ = List.insertionSort keyLe l₂ := by
  haveI : IsAntisymm (String × Json) (fun a b : String × Json => keyLe a b ∧ a.1 ≠ b.1) :=
    ⟨fun a b h1 h2 => absurd (strLe_antisymm h1.1 h2.1) h1.2⟩
  have hnd₂ : (l₂.map Prod.fst).Nodup := ((hp.map Prod.fst).nodup_iff).mp hnd
  have hnds₁ : ((List.insertionSort keyLe l₁).map Prod.fst).Nodup :=
    (((List.perm_insertionSort keyLe l₁).map Prod.fst).nodup_iff).mpr hnd
  have hnds₂ : ((List.insertionSort keyLe l₂).map Prod.fst).Nodup :=
    (((List.perm_insertionSort keyLe l₂).map Prod.fst).nodup_iff).mpr hnd₂
  exact List.eq_of_perm_of_sorted
    ((List.perm_insertionSort keyLe l₁).trans (hp.trans (List.perm_insertionSort keyLe l₂).symm))
    (pairwise_keyStrict_of_sorted_nodup (List.sorted_insertionSort keyLe l₁) hnds₁)
    (pairwise_keyStrict_of_sorted_nodup (List.sorted_insertionSort keyLe l₂) hnds₂)

/-- Values equal as Python dicts/values canonicalize identically, hence
serialize and hash identically under `sort_keys=True`. -/
theorem canon_eq_of_MEq {j₁ j₂ : Json} (h : MEq j₁ j₂) : canon j₁ = canon j₂ := by
  induction h with
  | null => rfl
  | bool b => rfl
  | num n => rfl
  | str s => rfl
  | arrNil => rfl
  | arrCons h1 h2 ih1 ih2 =>
    simp only [canon, canonList] at ih2 ⊢
    rw [ih1]
    injection ih2 with h3
    rw [h3]
  | objNil => rfl
  | objCons h1 h2 ih1 ih2 =>
    simp only [canon, canonKVs, List.insertionSort] at ih2 ⊢
    injection ih2 with h3
    rw [ih1, List.insertionSort.eq_def] at *
    simp only [canon] at *
    rw [h3]
  | objPerm hperm hnd h2 ih =>
    rename_i kvs₁ kvs₁' kvs₂
    have hstep : canon (.obj kvs₁) = canon (.obj kvs₁') := by
      simp only [canon]
      have hpc : (canonKVs kvs₁).Perm (canonKVs kvs₁') := by
        rw [canonKVs_eq_map, canonKVs_eq_map]
        exact hperm.map _
      have hndc : ((canonKVs kvs₁).map Prod.fst).Nodup := by
        rw [map_fst_canonKVs]; exact hnd
      rw [insertionSort_eq_of_perm hpc hndc]
    exact hstep.trans ih

/-! ### Data model (`channel_manager.py`, `bot_manager.py`)

Dataclasses become structures; the mutable `ChannelManager`/`BotManager`
pair (one global instance of each in `multiplayer_server.py`) becomes the
explicit `MgrState` record.  Python dicts that preserve insertion order
become association lists; `datetime.utcnow().isoformat()` timestamps are
an opaque increasing tick; `secrets.token_urlsafe` ids are caller-supplied
fresh strings. -/

structure Slot where
  slot_id : String
  kind : String
  label : String
  filled_by : Option String := none
  admin : Bool := false
deriving Repr, DecidableEq

/-- Admin ops for `update_channel`.  The source receives dicts; each
constructor carries exactly the fields the handler reads (`set_bot` reads
only `bot_def["name"]`).  `unknown` stands for any other `type` string. -/
inductive AdminOp where
  | set_bot (slot_id : String) (bot_name : String)
  | remove_bot (slot_id : String)
  | yield_slot (slot_id : String) (toKind : String)
  | set_admin (slot_id : String) (admin : Bool)
  | rename (name : String)
  | unknown (op_type : String)
deriving Repr, DecidableEq

def opTypeStr : AdminOp → String
  | .set_bot _ _ => "set_bot"
  | .remove_bot _ => "remove_bot"
  | .yield_slot _ _ => "yield_slot"
  | .set_admin _ _ => "set_admin"
  | .rename _ => "rename"
  | .unknown t => t

structure AnnouncedBot where
  slot_id : String
  name : String
  version : String
  summary : Json

/-- Message bodies, one constructor per dict shape the source constructs;
`user` covers caller-supplied bodies. -/
inductive Body where
  | botsAnnounced (bots : List AnnouncedBot)
  | opApplied (op_type : String) (op : AdminOp)
  | botAttach (bot_id code_hash manifest_hash name : String)
  | botManifest (bot_id name version : String) (summary hooks emits : Json)
  | user (payload : Json)

structure Message where
  id : Nat
  channel_id : String
  sender : String
  kind : String
  body : Body
  ts : Nat

/-- A channel record.  The source dict also stores an unused empty dict
under key `bots` (bot instances actually live in `BotManager`); it is
omitted because nothing ever reads it. -/
structure Channel where
  channel_id : String
  name : String
  slots : List Slot
  messages : List Message
  created_at : Nat

structure BotDefinition where
  name : String
  version : String
  inline_code : Option String := none
  code_ref : Option String := none
  manifest : Option (List (String × Json)) := none
  env_redacted : Option (List (String × String)) := none

/-- Runtime bot record.  The compiled class handle (`bot_class`) is opaque
host data and is not modelled; hook execution runs arbitrary bot code and
enters the model only through the posts it performs. -/
structure BotInstance where
  bot_id : String
  bot_def : BotDefinition
  state : List (String × Json) := []
  state_version : Nat := 0
  created_at : Nat

structure MgrState where
  channels : List (String × Channel)
  invites : List (String × (String × String))
  session_slots : List (String × (String × String))
  message_counter : Nat
  bot_instances : List (String × List (String × BotInstance))
  tick : Nat

def initState : MgrState := ⟨[], [], [], 0, [], 0⟩

def alookup {β : Type} (l : List (String × β)) (k : String) : Option β := List.lookup k l

/-- `d[k] = v` on an insertion-ordered dict: replace in place or append. -/
def aset {β : Type} (l : List (String × β)) (k : String) (v : β) : List (String × β) :=
  if (List.lookup k l).isSome then l.map (fun p => if p.1 == k then (p.1, v) else p)
  else l ++ [(k, v)]

/-- `del d[k]`. -/
def aremove {β : Type} (l : List (String × β)) (k : String) : List (String × β) :=
  l.filter (fun p => !(p.1 == k))

def getChannel (st : MgrState) (cid : String) : Option Channel := alookup st.channels cid

def modifyChannel (st : MgrState) (cid : String) (f : Channel → Channel) : MgrState :=
  { st with channels := st.channels.map (fun p => if p.1 == cid then (p.1, f p.2) else p) }

/-- Split a character list at the first occurrence of `sep`. -/
def splitFirst (sep : Char) : List Char → Option (List Char × List Char)
  | [] => none
  | c :: rest =>
    if c = sep then some ([], rest)
    else match splitFirst sep rest with
      | some (a, b) => some (c :: a, b)
      | none => none

/-- `spec.split(":", 1)`: split on the first colon only. -/
def pySplit1Colon (s : String) : String × Option String :=
  match splitFirst (Char.ofNat 58) s.data with
  | none => (s, none)
  | some (a, b) => (String.mk a, some (String.mk b))

/-- `s.startswith(pre)`.  (Structural, unlike the byte-based core
`String.startsWith`, with the same meaning.) -/
def pyStartsWith (s pre : String) : Bool := pre.data.isPrefixOf s.data

/-- Python truthiness of an optional string (`None` and `""` are falsy). -/
def optTruthy : Option String → Bool
  | some s => !(s == "")
  | none => false

def nextMessageId (st : MgrState) : Nat × MgrState :=
  (st.message_counter + 1, { st with message_counter := st.message_counter + 1 })

def drawTs (st : MgrState) : Nat × MgrState := (st.tick, { st with tick := st.tick + 1 })

/-- `ChannelManager._is_member` (lines 302-316). -/
def isMember (st : MgrState) (cid sid : String) : Bool :=
  match getChannel st cid with
  | none => false
  | some ch =>
    if pyStartsWith sid "bot:" then
      ch.slots.any (fun slot =>
        optTruthy slot.filled_by &&
          (slot.filled_by == some sid || pyStartsWith (slot.filled_by.getD "") "bot:"))
    else ch.slots.any (fun slot => slot.filled_by == some sid)

/-- `ChannelManager._is_admin` (lines 318-325). -/
def isAdmin (st : MgrState) (cid sid : String) : Bool :=
  match getChannel st cid with
  | none => false
  | some ch => ch.slots.any (fun slot => slot.filled_by == some sid && slot.admin)

structure ChannelView where
  channel_id : String
  name : String
  slots : List Slot
  created_at : Nat

/-- `ChannelManager._get_channel_view`; the `none` branch is unreachable
(the source indexes `self.channels[channel_id]` and every caller has
checked presence). -/
def getChannelView (st : MgrState) (cid : String) : ChannelView :=
  match getChannel st cid with
  | some ch => ⟨cid, ch.name, ch.slots, ch.created_at⟩
  | none => ⟨cid, "", [], 0⟩

/-- `ChannelManager._post_system_message` (lines 338-352). -/
def postSystemMessage (st : MgrState) (cid : String) (body : Body) : MgrState :=
  let (msgId, st1) := nextMessageId st
  let (ts, st2) := drawTs st1
  modifyChannel st2 cid (fun ch =>
    { ch with messages := ch.messages ++ [⟨msgId, cid, "system", "system", body, ts⟩] })

/-! ### `create_channel` -/

/-- A `BotDef` dict as passed in `bots`; each field mirrors a key the
source reads (`b.get("slot")`, `bot.get("version", "1.0")`, ...). -/
structure BotSpec where
  name : String
  version : Option String := none
  manifest : Option (List (String × Json)) := none
  slot : Option String := none
  inline_code : Option String := none
  code_ref : Option String := none

/-- The slot-construction loop of `create_channel` (lines 77-104): returns
the slot objects, the invite codes in slot order, and the invite-table
entries.  `i` is the enumeration index, `invIdx` counts minted invites. -/
def createSlots (cid : String) (bots : List BotSpec) (freshInv : Nat → String) :
    List String → Nat → Nat → (List Slot × List String × List (String × (String × String)))
  | [], _, _ => ([], [], [])
  | spec :: rest, i, invIdx =>
    let (kind, labelOpt) := pySplit1Colon spec
    let label := labelOpt.getD (kind ++ "_" ++ toString i)
    let slotId := "s" ++ toString i
    if kind == "invite" then
      let code := freshInv invIdx
      let (ss, codes, invs) := createSlots cid bots freshInv rest (i + 1) (invIdx + 1)
      (⟨slotId, kind, label, none, false⟩ :: ss, code :: codes, (code, cid, slotId) :: invs)
    else
      let filled :=
        if kind == "bot" && !bots.isEmpty then
          match bots.find? (fun b => b.slot == some spec) with
          | some bd => some ("bot:" ++ bd.name)
          | none => none
        else none
      let (ss, codes, invs) := createSlots cid bots freshInv rest (i + 1) invIdx
      (⟨slotId, kind, label, filled, kind == "bot"⟩ :: ss, codes, invs)

/-- The `bots_announced` payload (lines 120-128): `zip(slot_objects, bots)`
filtered to bot-kind slots. -/
def announcedBots (slots : List Slot) (bots : List BotSpec) : List AnnouncedBot :=
  ((slots.zip bots).filter (fun p => p.1.kind == "bot")).map
    (fun p => ⟨p.1.slot_id, p.2.name, p.2.version.getD "1.0",
      ((p.2.manifest.getD []).lookup "summary").getD (.str "")⟩)

structure CreateResult where
  channel_id : String
  invites : List String
  view : ChannelView

/-- `ChannelManager.create_channel` (lines 58-134).  `freshChan` and
`freshInv` supply the `secrets.token_urlsafe` ids. -/
def createChannel (st : MgrState) (name : String) (slotSpecs : List String)
    (bots : List BotSpec) (freshChan : String) (freshInv : Nat → String) :
    CreateResult × MgrState :=
  let cid := freshChan
  let (slotObjs, codes, invEntries) := createSlots cid bots freshInv slotSpecs 0 0
  let (created, st1) := drawTs st
  let ch : Channel := ⟨cid, name, slotObjs, [], created⟩
  let st2 := { st1 with invites := st1.invites ++ invEntries,
                        channels := aset st1.channels cid ch }
  let st3 := if bots.isEmpty then st2
    else postSystemMessage st2 cid (.botsAnnounced (announcedBots slotObjs bots))
  (⟨cid, codes, getChannelView st3 cid⟩, st3)

/-! ### `join_channel`, `post_message`, `sync_messages`, `update_channel` -/

/-- Update the first slot matching `slotId`, like the source's
`next(s for s in slots if s.slot_id == slot_id)` followed by mutation. -/
def setSlotFirst (slots : List Slot) (slotId : String) (f : Slot → Slot) : List Slot :=
  match slots with
  | [] => []
  | s :: rest =>
    if s.slot_id == slotId then f s :: rest else s :: setSlotFirst rest slotId f

structure JoinOk where
  channel_id : String
  slot_id : String
  view : ChannelView

/-- `ChannelManager.join_channel` (lines 136-185).  Raised `ValueError`s
become `Except.error` with the state unchanged (the source mutates nothing
before its checks pass). -/
def joinChannel (st : MgrState) (inviteCode sessionId : String) :
    Except String JoinOk × MgrState :=
  match alookup st.invites inviteCode with
  | none => (.error "INVITE_INVALID", st)
  | some (cid, slotId) =>
    match getChannel st cid with
    | none => (.error "CHANNEL_NOT_FOUND", st)
    | some ch =>
      match ch.slots.find? (fun s => s.slot_id == slotId) with
      | none => (.error "SLOT_NOT_FOUND", st)
      | some slot =>
        match slot.filled_by with
        | some f =>
          if f == sessionId then (.ok ⟨cid, slotId, getChannelView st cid⟩, st)
          else (.error "SLOT_ALREADY_FILLED", st)
        | none =>
          let st1 := modifyChannel st cid (fun c =>
            { c with slots :=
                setSlotFirst c.slots slotId (fun s => { s with filled_by := some sessionId }) })
          let st2 := { st1 with
            session_slots := aset st1.session_slots sessionId (cid, slotId),
            invites := aremove st1.invites inviteCode }
          (.ok ⟨cid, slotId, getChannelView st2 cid⟩, st2)

structure PostOk where
  msg_id : Nat
  ts : Nat

/-- `ChannelManager.post_message` (lines 187-216). -/
def postMessage (st : MgrState) (cid sid kind : String) (body : Body) :
    Except String PostOk × MgrState :=
  if (getChannel st cid).isNone then (.error "CHANNEL_NOT_FOUND", st)
  else if !(isMember st cid sid) then (.error "NOT_MEMBER", st)
  else
    let (msgId, st1) := nextMessageId st
    let (ts, st2) := drawTs st1
    let st3 := modifyChannel st2 cid (fun ch =>
      { ch with messages := ch.messages ++ [⟨msgId, cid, sid, kind, body, ts⟩] })
    (.ok ⟨msgId, ts⟩, st3)

structure SyncResult where
  messages : List Message
  cursor : Int
  view : Option ChannelView

/-- `max(xs, default=d)`. -/
def pyMax (ids : List Nat) (dflt : Int) : Int :=
  match ids with
  | [] => dflt
  | x :: xs => ↑(xs.foldl Nat.max x)

/-- `ChannelManager.sync_messages` (lines 218-257).  The long-poll branch
(lines 242-245) is a no-op `pass` in the source, so the result does not
depend on `timeout_ms` and the state is never changed. -/
def syncMessages (st : MgrState) (cid sid : String) (cursor : Option Int)
    (timeout_ms : Int) : Except String SyncResult :=
  match getChannel st cid with
  | none => .error "CHANNEL_NOT_FOUND"
  | some ch =>
    if !(isMember st cid sid) then .error "NOT_MEMBER"
    else
      let c := cursor.getD 0
      let newMessages := ch.messages.filter (fun m => (m.id : Int) > c)
      let _ := timeout_ms
      let newCursor := pyMax (ch.messages.map (fun m => m.id)) c
      let view := if newMessages.isEmpty then some (getChannelView st cid) else none
      .ok ⟨newMessages, newCursor, view⟩

/-- One admin op (`_op_set_bot` / `_op_remove_bot` / `_op_yield_slot` /
`_op_set_admin` / the inline `rename`, lines 354-401 and 278-289), without
the system message.  Each helper looks the slot up before mutating, so an
error leaves the state unchanged. -/
def applyOp (st : MgrState) (cid : String) (op : AdminOp) : Except String MgrState :=
  match getChannel st cid with
  | none => .error "CHANNEL_NOT_FOUND"
  | some ch =>
    match op with
    | .set_bot slotId botName =>
      if (ch.slots.find? (fun s => s.slot_id == slotId)).isNone then .error "SLOT_NOT_FOUND"
      else .ok (modifyChannel st cid (fun c =>
        { c with slots := setSlotFirst c.slots slotId (fun s =>
            { s with kind := "bot", filled_by := some ("bot:" ++ botName), admin := true }) }))
    | .remove_bot slotId =>
      if (ch.slots.find? (fun s => s.slot_id == slotId)).isNone then .error "SLOT_NOT_FOUND"
      else .ok (modifyChannel st cid (fun c =>
        { c with slots := setSlotFirst c.slots slotId (fun s =>
            { s with filled_by := none,
                     admin := if s.kind == "bot" then false else s.admin }) }))
    | .yield_slot slotId toKind =>
      if (ch.slots.find? (fun s => s.slot_id == slotId)).isNone then .error "SLOT_NOT_FOUND"
      else .ok (modifyChannel st cid (fun c =>
        { c with slots := setSlotFirst c.slots slotId (fun s =>
            { s with kind := toKind, filled_by := none, admin := toKind == "bot" }) }))
    | .set_admin slotId adm =>
      if (ch.slots.find? (fun s => s.slot_id == slotId)).isNone then .error "SLOT_NOT_FOUND"
      else .ok (modifyChannel st cid (fun c =>
        { c with slots := setSlotFirst c.slots slotId (fun s => { s with admin := adm }) }))
    | .rename newName =>
      .ok (modifyChannel st cid (fun c => { c with name := newName }))
    | .unknown t => .error ("BAD_OP: " ++ t)

/-- The op loop of `update_channel` (lines 275-295): apply each op in order,
post one `<op_type>_applied` system message per applied op, and stop at the
first failure, keeping every mutation made so far (the raised `ValueError`
propagates but nothing is rolled back). -/
def applyOps : MgrState → String → List AdminOp → Except String Unit × MgrState
  | st, _, [] => (.ok (), st)
  | st, cid, op :: rest =>
    match applyOp st cid op with
    | .error e => (.error e, st)
    | .ok st1 =>
      let st2 := postSystemMessage st1 cid (.opApplied (opTypeStr op) op)
      applyOps st2 cid rest

structure UpdateOk where
  ok : Bool
  view : ChannelView

/-- `ChannelManager.update_channel` (lines 259-300). -/
def updateChannel (st : MgrState) (cid sid : String) (ops : List AdminOp) :
    Except String UpdateOk × MgrState :=
  if (getChannel st cid).isNone then (.error "CHANNEL_NOT_FOUND", st)
  else if !(isAdmin st cid sid) then (.error "NOT_ADMIN", st)
  else
    match applyOps st cid ops with
    | (.error e, st1) => (.error e, st1)
    | (.ok _, st1) => (.ok ⟨true, getChannelView st1 cid⟩, st1)

/-! ### `bot_manager.py` -/

/-- The import allowlist of `BotManager._create_safe_builtins`
(lines 273-285), verbatim including `sys`. -/
def allowedModules : List String :=
  ["json", "math", "random", "datetime", "time",
   "re", "base64", "hashlib", "hmac", "secrets",
   "collections", "itertools", "functools",
   "io", "traceback", "sys", "typing",
   "socket", "ssl", "http", "urllib", "urllib3", "requests",
   "certifi", "charset_normalizer", "idna",
   "email", "warnings", "weakref", "copy"]

/-- `name.split(".")[0]`: everything before the first dot. -/
def baseModule (s : String) : String :=
  match splitFirst (Char.ofNat 46) s.data with
  | none => s
  | some (a, _) => String.mk a

/-- `_safe_import`: allowed iff `name.split(".")[0]` is in the allowlist. -/
def safeImportAllowed (name : String) : Bool :=
  allowedModules.contains (baseModule name)

/-- The `ImportError` raised by `_safe_import` (the source message is
`"Import of <name> is not allowed"` with the name quoted). -/
inductive ImportErr where
  | importDenied (name : String)
deriving Repr, DecidableEq

/-- Executing the top-level import statements of an inline bot source under
`_create_safe_builtins` (what `exec(code_obj, restricted_globals)` does at
attach time, lines 246-248): the first disallowed import raises. -/
def runTopLevelImports : List String → Except ImportErr Unit
  | [] => .ok ()
  | name :: rest =>
    if safeImportAllowed name then runTopLevelImports rest
    else .error (.importDenied name)

/-- `BotManager.compute_code_hash` (lines 298-305): the inline source if
truthy, else `code_ref or ""`. -/
def computeCodeHash (bd : BotDefinition) : String :=
  "sha256:" ++ sha256hex (match bd.inline_code with
    | some c => if c == "" then bd.code_ref.getD "" else c
    | none => bd.code_ref.getD "")

/-- `BotManager.compute_manifest_hash` (lines 307-310). -/
def computeManifestHash (manifest : List (String × Json)) : String :=
  "sha256:" ++ sha256hex (dumpsSorted manifest)

structure BotListing where
  bot_id : String
  name : String
  version : String
  manifest : Option (List (String × Json))
  created_at : Nat
  state_version : Nat

/-- `BotManager.get_channel_bots` (lines 418-434). -/
def getChannelBots (st : MgrState) (cid : String) : List BotListing :=
  match alookup st.bot_instances cid with
  | none => []
  | some insts => insts.map (fun p =>
      ⟨p.2.bot_id, p.2.bot_def.name, p.2.bot_def.version, p.2.bot_def.manifest,
        p.2.created_at, p.2.state_version⟩)

/-- Python truthiness of an optional dict (`None` and the empty dict are
falsy), for `if bot_def.manifest:`. -/
def manifestTruthy : Option (List (String × Json)) → Bool
  | some m => !m.isEmpty
  | none => false

def mGet (m : List (String × Json)) (k : String) (dflt : Json) : Json :=
  (alookup m k).getD dflt

/-- Fill the first unfilled bot-kind slot (lines 147-151). -/
def fillFirstUnfilledBot (slots : List Slot) (botName : String) : List Slot :=
  match slots with
  | [] => []
  | s :: rest =>
    if s.kind == "bot" && s.filled_by.isNone then
      { s with filled_by := some ("bot:" ++ botName) } :: rest
    else s :: fillFirstUnfilledBot rest botName

structure AttachOk where
  bot_id : String
  code_hash : String
  manifest_hash : String

/-- `BotManager.attach_bot` (lines 119-198).  `loadResult` stands for
`_load_bot_code` (builtin registry lookup or sandbox compile), which runs
host/bot code outside this pure fragment; its `on_init` hook likewise runs
bot code and surfaces in traces only as separate posts. -/
def attachBot (st : MgrState) (cid : String) (bd : BotDefinition)
    (loadResult : Except String Unit) : Except String AttachOk × MgrState :=
  if (getChannel st cid).isNone then (.error "CHANNEL_NOT_FOUND", st)
  else
    let botId := "bot_" ++ bd.name ++ "_" ++
      toString ((alookup st.bot_instances cid).getD []).length
    match loadResult with
    | .error e => (.error e, st)
    | .ok _ =>
      let (created, st1) := drawTs st
      let inst : BotInstance := { bot_id := botId, bot_def := bd, created_at := created }
      let newInsts := ((alookup st1.bot_instances cid).getD []) ++ [(botId, inst)]
      let st2 := { st1 with bot_instances := aset st1.bot_instances cid newInsts }
      let st3 := modifyChannel st2 cid (fun ch =>
        if (ch.slots.find? (fun s => s.kind == "bot" && s.filled_by.isNone)).isSome then
          { ch with slots := fillFirstUnfilledBot ch.slots bd.name }
        else
          { ch with slots := ch.slots ++
              [⟨"s" ++ toString ch.slots.length, "bot", "bot:" ++ bd.name,
                some ("bot:" ++ bd.name), true⟩] })
      let codeHash := computeCodeHash bd
      let manifestHash := computeManifestHash (bd.manifest.getD [])
      let st4 := postSystemMessage st3 cid (.botAttach botId codeHash manifestHash bd.name)
      let st5 :=
        if manifestTruthy bd.manifest then
          postSystemMessage st4 cid (.botManifest botId bd.name bd.version
            (mGet (bd.manifest.getD []) "summary" (.str ""))
            (mGet (bd.manifest.getD []) "hooks" (.arr []))
            (mGet (bd.manifest.getD []) "emits" (.arr [])))
        else st4
      (.ok ⟨botId, codeHash, manifestHash⟩, st5)

/-- `BotManager.get_bot_state_version` (lines 411-416). -/
def getBotStateVersion (st : MgrState) (cid botId : String) : Nat :=
  match alookup st.bot_instances cid with
  | none => 0
  | some insts => match alookup insts botId with
    | none => 0
    | some inst => inst.state_version

/-- `{**base, **extra}`: keys of `base` in order with overridden values,
then new keys of `extra` in order. -/
def dictMerge (base extra : List (String × Json)) : List (String × Json) :=
  (base.map (fun p => match List.lookup p.1 extra with
    | some v => (p.1, v)
    | none => p)) ++ extra.filter (fun q => (List.lookup q.1 base).isNone)

/-- `BotManager.post_message_from_bot` (lines 381-394): decorate the body
and post with the synthesized sender `"bot:" + bot_id`. -/
def postMessageFromBot (st : MgrState) (cid botId kind : String)
    (body : List (String × Json)) : Except String PostOk × MgrState :=
  postMessage st cid ("bot:" ++ botId) kind
    (.user (.obj (dictMerge body
      [("bot_id", .str botId), ("state_version", .num (getBotStateVersion st cid botId))])))

/-! ### `multiplayer_server.py` (Tool Facade) -/

/-- The attributes defined on class `ChannelManager` in
`channel_manager.py`, in source order.  `_check_membership` is not among
them; an access raises `AttributeError`. -/
def channelManagerMethods : List String :=
  ["_generate_id", "_generate_invite_code", "_next_message_id", "create_channel",
   "join_channel", "post_message", "sync_messages", "update_channel", "_is_member",
   "_is_admin", "_get_channel_view", "_post_system_message", "_op_set_bot",
   "_op_remove_bot", "_op_yield_slot", "_op_set_admin"]

structure BotCodeOk where
  bot_id : String
  name : String
  version : String
  code_ref : Option String
  inline_code : Option String
  manifest : Option (List (String × Json))
  code_hash : String
  manifest_hash : String

/-- `multiplayer_server.get_bot_code` (lines 392-443).  After the session
check it evaluates `channel_manager._check_membership(...)`; that attribute
does not exist on `ChannelManager`, so Python raises `AttributeError`,
which skips `except ValueError` and lands in the blanket
`except Exception` handler, reported as INTERNAL_ERROR (the source appends
the exception text to the message; the constant prefix is modelled).  The
`then` branch spells out what lines 414-437 would do and is dead code. -/
def getBotCodeServer (st : MgrState) (sessionId : Option String) (cid botId : String) :
    Except String BotCodeOk :=
  match sessionId with
  | none => .error "NO_SESSION: Missing session ID from client"
  | some _ =>
    if channelManagerMethods.contains "_check_membership" then
      match alookup st.bot_instances cid with
      | none => .error "CHANNEL_NOT_FOUND"
      | some insts =>
        match alookup insts botId with
        | none => .error "BOT_NOT_FOUND"
        | some inst =>
          .ok ⟨botId, inst.bot_def.name, inst.bot_def.version, inst.bot_def.code_ref,
            inst.bot_def.inline_code, inst.bot_def.manifest, computeCodeHash inst.bot_def,
            computeManifestHash (inst.bot_def.manifest.getD [])⟩
    else .error "INTERNAL_ERROR: Failed to get bot code"

/-- Heterogeneous values of the dict returned by the server `join_channel`
tool. -/
inductive JoinVal where
  | str (v : String)
  | view (v : ChannelView)
  | bots (v : List BotListing)

/-- `multiplayer_server.join_channel` (lines 184-220): delegate to the
manager, dispatch `on_join` hooks (bot code, outside the pure fragment),
then return the manager's dict with a `bots` key added — and nothing
else. -/
def joinChannelServer (st : MgrState) (sessionId : Option String) (inviteCode : String) :
    Except String (List (String × JoinVal)) × MgrState :=
  if inviteCode == "" then (.error "invite_code required", st)
  else
    match sessionId with
    | none => (.error "NO_SESSION: Missing session ID from client", st)
    | some sid =>
      match joinChannel st inviteCode sid with
      | (.error e, st1) => (.error e, st1)
      | (.ok r, st1) =>
        (.ok [("channel_id", .str r.channel_id), ("slot_id", .str r.slot_id),
              ("view", .view r.view), ("bots", .bots (getChannelBots st1 r.channel_id))], st1)

/-! ### Event traces

Reachable manager states are those produced by a sequence of operations of
the two managers.  Oracle data (fresh ids, sandbox load results) rides on
the events; bot hook executions appear as the posts they make. -/

inductive Event where
  | create (name : String) (slotSpecs : List String) (bots : List BotSpec)
      (freshChan : String) (freshInv : Nat → String)
  | join (inviteCode sessionId : String)
  | post (cid sid kind : String) (body : Body)
  | botPost (cid botId kind : String) (body : List (String × Json))
  | update (cid sid : String) (ops : List AdminOp)
  | attach (cid : String) (bd : BotDefinition) (loadResult : Except String Unit)

def stepEvent (st : MgrState) (e : Event) : MgrState :=
  match e with
  | .create name specs bots fc fi => (createChannel st name specs bots fc fi).2
  | .join code sid => (joinChannel st code sid).2
  | .post cid sid kind body => (postMessage st cid sid kind body).2
  | .botPost cid botId kind body => (postMessageFromBot st cid botId kind body).2
  | .update cid sid ops => (updateChannel st cid sid ops).2
  | .attach cid bd ld => (attachBot st cid bd ld).2

def runEvents (evs : List Event) : MgrState := evs.foldl stepEvent initState

/-! ### Concrete reachable states used by counterexamples and witnesses -/

/-- One channel `chnA` named `Test` with a single invite slot. -/
def joinDemoState : MgrState :=
  runEvents [.create "Test" ["invite:player1"] [] "chnA" (fun n => "inv" ++ toString n)]

/-- `joinDemoState` after session `sessA` consumed invite `inv0`. -/
def joinedState : MgrState := (joinChannel joinDemoState "inv0" "sessA").2

/-- `joinedState` after `sessA` posted one message (id 1). -/
def postedState : MgrState :=
  (postMessage joinedState "chnA" "sessA" "user" (.user (.obj [("text", Json.str "hi")]))).2

/-- The inline bot the server builds for `bot_code` (name `CustomBot`). -/
def demoBotDef : BotDefinition :=
  { name := "CustomBot", version := "1.0", inline_code := some "class EchoBot: pass",
    manifest := some [("summary", Json.str "Custom inline bot"),
      ("hooks", Json.arr [Json.str "on_init"]), ("emits", Json.arr [Json.str "system"]),
      ("params", Json.obj [])] }

/-- Channel `chnB` with a bot slot and an invite slot, with `demoBotDef`
attached (slot `s0` filled by `bot:CustomBot`, admin). -/
def demoState : MgrState :=
  runEvents [.create "G" ["bot:ref", "invite:p"] [] "chnB" (fun n => "binv" ++ toString n),
    .attach "chnB" demoBotDef (.ok ())]

end Multiplayer

namespace Multiplayer

/-! ### Claims -/

/-- Claim C1.  The claim says `get_bot_code` succeeds for every channel
member and attached bot and does not fail with INTERNAL_ERROR.  The code
refutes it: the handler calls `channel_manager._check_membership`, an
attribute that does not exist on `ChannelManager`, so every call with a
session — member or not, attached bot or not — raises `AttributeError`
and is reported as INTERNAL_ERROR.  This contradicts the handler's own
docstring ("Retrieve bot code and manifest for verification"), so the
code, not the claim, is wrong. -/
theorem C1_get_bot_code_always_internal_error (st : MgrState) (sid cid botId : String) :
    getBotCodeServer st (some sid) cid botId =
      .error "INTERNAL_ERROR: Failed to get bot code" := rfl

/-- Claim C2.  The claim (and the tool's docstring) says a successful
`join_channel` result contains a freshly minted rejoin token.  The code
refutes it: the result dict of every successful join has exactly the keys
`channel_id`, `slot_id`, `view`, `bots` — no rejoin token is ever minted
anywhere in the source. -/
theorem C2_join_result_has_no_rejoin_token (st : MgrState) (sid inviteCode : String)
    (res : List (String × JoinVal)) (st' : MgrState)
    (h : joinChannelServer st (some sid) inviteCode = (.ok res, st')) :
    res.map Prod.fst = ["channel_id", "slot_id", "view", "bots"] := by
  unfold joinChannelServer at h
  split at h
  · simp_all
  · split at h
    · simp_all
    · split at h
      · simp_all
      · simp only [Prod.mk.injEq, Except.ok.injEq] at h
        rcases h with ⟨h5, h6⟩
        subst h5
        rfl

/-- Witness for C2 at a concrete successful join. -/
theorem C2_witness :
    ([("channel_id", JoinVal.str "chnA"), ("slot_id", JoinVal.str "s0"),
      ("view", JoinVal.view ⟨"chnA", "Test",
        [⟨"s0", "invite", "player1", some "sessA", false⟩], 0⟩),
      ("bots", JoinVal.bots [])] : List (String × JoinVal)).map Prod.fst =
      ["channel_id", "slot_id", "view", "bots"] :=
  C2_join_result_has_no_rejoin_token joinDemoState "sessA" "inv0" _
    (joinChannelServer joinDemoState (some "sessA") "inv0").2 (by rfl)

theorem lookup_aremove_self {β : Type} (l : List (String × β)) (k : String) :
    List.lookup k (aremove l k) = none := by
  induction l with
  | nil => rfl
  | cons p rest ih =>
    by_cases hpk : p.1 = k
    · simpa [aremove, List.filter, hpk] using ih
    · have hb : (p.1 == k) = false := by simp [hpk]
      have hb2 : (k == p.1) = false := by
        simp only [beq_eq_false_iff_ne, ne_eq]
        exact fun hd => hpk hd.symm
      simpa [aremove, List.filter, hb, List.lookup, hb2] using ih

/-- Counterexample scenario for C3: the invite `inv0` is consumed by
`sessA` (first conjunct), and the same session re-presenting the same code
is answered INVITE_INVALID rather than succeeding idempotently, because
`join_channel` deletes the invite entry on success. -/
theorem C3_counterexample :
    (joinChannel joinDemoState "inv0" "sessA").1.toOption.isSome = true ∧
    (joinChannel joinedState "inv0" "sessA").1 = .error "INVITE_INVALID" ∧
    (joinChannel joinedState "inv0" "sessA").2 = joinedState :=
  ⟨rfl, rfl, rfl⟩

/-- Claim C3 (amended).  When an invite code bound to an unfilled slot is
consumed by a session, the entry is deleted from the invite table, and any
subsequent `join_channel` with that code — by the same session or any
other — fails with INVITE_INVALID and leaves the state unchanged.  (The
source's idempotent-success branch fires only if the invite entry still
exists while the slot is already filled, which the normal flow never
produces.) -/
theorem joinChannel_no_invite (st : MgrState) (code sid : String)
    (h : alookup st.invites code = none) :
    joinChannel st code sid = (.error "INVITE_INVALID", st) := by
  unfold joinChannel
  rw [show alookup st.invites code = none from h]

theorem C3_consumed_invite_rejected (st : MgrState) (code sidS : String)
    (cid slotId : String) (ch : Channel) (slot : Slot) (r : JoinOk)
    (hinv : alookup st.invites code = some (cid, slotId))
    (hch : getChannel st cid = some ch)
    (hslot : ch.slots.find? (fun s => s.slot_id == slotId) = some slot)
    (hfb : slot.filled_by = none)
    (h : (joinChannel st code sidS).1 = .ok r) :
    alookup (joinChannel st code sidS).2.invites code = none ∧
    ∀ sid2, joinChannel (joinChannel st code sidS).2 code sid2 =
      (.error "INVITE_INVALID", (joinChannel st code sidS).2) := by
  have hused := h
  have hdel : alookup (joinChannel st code sidS).2.invites code = none := by
    unfold joinChannel
    simp only [hinv, hch, hslot, hfb]
    exact lookup_aremove_self _ _
  exact ⟨hdel, fun sid2 => joinChannel_no_invite _ _ _ hdel⟩

/-- Witness for C3 at the concrete scenario. -/
theorem C3_witness :
    alookup joinedState.invites "inv0" = none ∧
    ∀ sid2, joinChannel joinedState "inv0" sid2 = (.error "INVITE_INVALID", joinedState) :=
  C3_consumed_invite_rejected joinDemoState "inv0" "sessA" "chnA" "s0" _ _ _
    (by rfl) (by rfl) (by rfl) (by rfl) (by rfl)

theorem le_foldlMax_init (x : Nat) (xs : List Nat) : x ≤ xs.foldl Nat.max x := by
  induction xs generalizing x with
  | nil => exact le_refl x
  | cons y ys ih => exact le_trans (Nat.le_max_left x y) (ih (Nat.max x y))

theorem le_foldlMax_mem {a : Nat} (xs : List Nat) (h : a ∈ xs) :
    ∀ x, a ≤ xs.foldl Nat.max x := by
  induction xs with
  | nil => cases h
  | cons y ys ih =>
    intro x
    rcases List.mem_cons.mp h with rfl | h2
    · exact le_trans (Nat.le_max_right x a) (le_foldlMax_init _ ys)
    · exact ih h2 _

theorem foldlMax_mem_or_init (xs : List Nat) : ∀ x,
    xs.foldl Nat.max x = x ∨ xs.foldl Nat.max x ∈ xs := by
  induction xs with
  | nil => intro x; left; rfl
  | cons y ys ih =>
    intro x
    rcases ih (Nat.max x y) with h | h
    · rw [List.foldl_cons, h]
      by_cases hxy : x ≤ y
      · right
        have h2 : Nat.max x y = y := max_eq_right hxy
        rw [h2]
        exact List.mem_cons_self y ys
      · left
        exact max_eq_left (le_of_not_le hxy)
    · right; exact List.mem_cons_of_mem _ h

/-- `max(ids, default=c)` is an upper bound of the list. -/
theorem le_pyMax {a : Nat} (ids : List Nat) (c : Int) (h : a ∈ ids) :
    (a : Int) ≤ pyMax ids c := by
  cases ids with
  | nil => cases h
  | cons x xs =>
    show (a : Int) ≤ ((xs.foldl Nat.max x : Nat) : Int)
    rcases List.mem_cons.mp h with rfl | h2
    · exact_mod_cast le_foldlMax_init a xs
    · exact_mod_cast le_foldlMax_mem xs h2 x

/-- `max(ids, default=c)` of a nonempty list is an element of the list. -/
theorem pyMax_mem (ids : List Nat) (c : Int) (h : ids ≠ []) :
    ∃ a ∈ ids, pyMax ids c = (a : Int) := by
  cases ids with
  | nil => exact absurd rfl h
  | cons x xs =>
    rcases foldlMax_mem_or_init xs x with h2 | h2
    · refine ⟨x, List.mem_cons_self x xs, ?_⟩
      show ((xs.foldl Nat.max x : Nat) : Int) = (x : Int)
      rw [h2]
    · exact ⟨xs.foldl Nat.max x, List.mem_cons_of_mem _ h2, rfl⟩

/-- `max(ids, default=c)` equals any member that bounds the list. -/
theorem pyMax_eq_of_max {a : Nat} (ids : List Nat) (c : Int) (ha : a ∈ ids)
    (hb : ∀ b ∈ ids, b ≤ a) : pyMax ids c = (a : Int) := by
  obtain ⟨m, hm, hmax⟩ := pyMax_mem ids c (List.ne_nil_of_mem ha)
  have h1 : (a : Int) ≤ pyMax ids c := le_pyMax ids c ha
  have h2 : m ≤ a := hb m hm
  omega

/-- Counterexample for C4: with channel log `[id 1]` and input cursor 2,
`sync_messages` returns cursor 1 — less than the input cursor — because
the source computes `max(all ids, default=cursor)`, which regresses when
the caller's cursor exceeds every id in the log. -/
theorem C4_counterexample :
    ((syncMessages postedState "chnA" "sessA" (some 2) 25000).toOption.map
      (fun r => (r.cursor, r.messages.length))) = some (1, 0) ∧ (1 : Int) < 2 :=
  ⟨rfl, by decide⟩

/-- Claim C4 (amended).  On every successful call the returned messages
are exactly the log entries with id above the input cursor, and the
returned cursor is the maximum id over ALL messages of the channel log
(line 248), defaulting to the input cursor only when the log is empty —
not the maximum of the returned messages.  Consequently, whenever the
input cursor does not exceed the greatest id in the log (or the log is
empty), the cursor never regresses: it is ≥ the input, strictly greater
exactly when new messages are returned, equals the maximum id of the
returned messages when there are any, and equals the input cursor
otherwise; but when the input cursor exceeds every id in the log the
reply's cursor falls back to the log's maximum, BELOW the input (see the
counterexample), refuting the original claim's "never less than c". -/
theorem C4_cursor_watermark (st : MgrState) (cid sid : String) (c t : Int)
    (ch : Channel) (r : SyncResult)
    (hch : getChannel st cid = some ch)
    (h : syncMessages st cid sid (some c) t = .ok r) :
    r.cursor = pyMax (ch.messages.map (fun m => m.id)) c ∧
    r.messages = ch.messages.filter (fun m => (m.id : Int) > c) ∧
    ((ch.messages = [] ∨ ∃ m ∈ ch.messages, c ≤ (m.id : Int)) →
      c ≤ r.cursor ∧ (c < r.cursor ↔ r.messages ≠ []) ∧
      (r.messages ≠ [] → r.cursor = pyMax (r.messages.map (fun m => m.id)) c) ∧
      (r.messages = [] → r.cursor = c)) := by
  unfold syncMessages at h
  simp only [hch, Option.getD_some] at h
  by_cases hmem : (!isMember st cid sid) = true
  · rw [if_pos hmem] at h
    exact absurd h (by simp)
  · rw [if_neg hmem] at h
    injection h with hr
    subst hr
    refine ⟨rfl, rfl, ?_⟩
    intro hc
    dsimp only
    by_cases hnew : ch.messages.filter (fun m => decide ((m.id : Int) > c)) = []
    · have hall : ∀ m ∈ ch.messages, (m.id : Int) ≤ c := by
        intro m hm
        by_contra hgt
        have : m ∈ ch.messages.filter (fun m => decide ((m.id : Int) > c)) :=
          List.mem_filter.mpr ⟨hm, by simpa using lt_of_not_le hgt⟩
        simp [hnew] at this
      have hcur : pyMax (ch.messages.map (fun m => m.id)) c = c := by
        rcases hc with hemp | ⟨m, hm, hle⟩
        · rw [hemp]; rfl
        · have h1 : (m.id : Int) ≤ pyMax (ch.messages.map (fun m => m.id)) c :=
            le_pyMax _ _ (List.mem_map_of_mem _ hm)
          obtain ⟨a, hamem, haeq⟩ := pyMax_mem (ch.messages.map (fun m => m.id)) c
            (by simp [List.ne_nil_of_mem hm])
          obtain ⟨m2, hm2, hm2eq⟩ := List.mem_map.mp hamem
          have : (a : Int) ≤ c := hm2eq ▸ hall m2 hm2
          omega
      refine ⟨by simp [hnew, hcur], by simp [hnew, hcur], by simp [hnew], by simp [hnew, hcur]⟩
    · obtain ⟨m, hmf⟩ := List.exists_mem_of_ne_nil _ hnew
      obtain ⟨hmmem, hmgt⟩ := List.mem_filter.mp hmf
      have hmgt2 : c < (m.id : Int) := by simpa using hmgt
      obtain ⟨a, hamem, haeq⟩ := pyMax_mem (ch.messages.map (fun m => m.id)) c
        (by simp [List.ne_nil_of_mem hmmem])
      have hbound : ∀ b ∈ ch.messages.map (fun m => m.id), b ≤ a := by
        intro b hb
        have h1 : (b : Int) ≤ pyMax (ch.messages.map (fun m => m.id)) c := le_pyMax _ _ hb
        omega
      have hma : (m.id : Int) ≤ (a : Int) := by
        have := hbound m.id (List.mem_map_of_mem _ hmmem)
        exact_mod_cast this
      have hca : c < (a : Int) := lt_of_lt_of_le hmgt2 hma
      obtain ⟨ma, hmamem, hmaeq⟩ := List.mem_map.mp hamem
      have hmafilter : ma ∈ ch.messages.filter (fun m => decide ((m.id : Int) > c)) :=
        List.mem_filter.mpr ⟨hmamem, by simp [hmaeq]; omega⟩
      have hfiltermax : pyMax ((ch.messages.filter
          (fun m => decide ((m.id : Int) > c))).map (fun m => m.id)) c = (a : Int) := by
        apply pyMax_eq_of_max
        · exact hmaeq ▸ List.mem_map_of_mem _ hmafilter
        · intro b hb
          obtain ⟨mb, hmb, hmbeq⟩ := List.mem_map.mp hb
          exact hmbeq ▸ hbound mb.id
            (List.mem_map_of_mem _ (List.mem_filter.mp hmb).1)
      refine ⟨by rw [haeq]; omega, by simp [hnew, haeq]; omega, ?_, by simp [hnew]⟩
      intro _
      rw [haeq, hfiltermax]

/-- Witness for C4 at the concrete scenario (log `[id 1]`, cursor 1). -/
theorem C4_witness :
    (1 : Int) ≤ (SyncResult.mk [] 1 (some ⟨"chnA", "Test",
      [⟨"s0", "invite", "player1", some "sessA", false⟩], 0⟩)).cursor :=
  ((C4_cursor_watermark postedState "chnA" "sessA" 1 25000 _ _
    (by rfl) (by rfl)).2.2
    (Or.inr ⟨⟨1, "chnA", "sessA", "user", .user (.obj [("text", Json.str "hi")]), 1⟩,
      by constructor, by decide⟩)).1

theorem lookup_map_ite {β : Type} (l : List (String × β)) (k cid : String) (f : β → β) :
    List.lookup k (l.map (fun p => if p.1 == cid then (p.1, f p.2) else p)) =
    if k = cid then (List.lookup k l).map f else List.lookup k l := by
  induction l with
  | nil => by_cases h : k = cid <;> simp [h]
  | cons p rest ih =>
    obtain ⟨pk, pv⟩ := p
    simp only [List.map_cons]
    by_cases hp : (pk == cid) = true
    · rw [if_pos hp]
      have hp2 : pk = cid := by simpa using hp
      by_cases hk : k = pk
      · subst hk
        rw [if_pos hp2]
        simp [List.lookup_cons]
      · have hb : (k == pk) = false := beq_false_of_ne hk
        simp only [List.lookup_cons, hb]
        exact ih
    · rw [if_neg hp]
      have hp2 : ¬ pk = cid := fun hd => hp (by simp [hd])
      by_cases hk : k = pk
      · subst hk
        simp only [List.lookup_cons, beq_self_eq_true, if_neg hp2]
      · have hb : (k == pk) = false := beq_false_of_ne hk
        simp only [List.lookup_cons, hb]
        exact ih

theorem getChannel_modifyChannel (st : MgrState) (cid c : String) (f : Channel → Channel) :
    getChannel (modifyChannel st cid f) c =
      if c = cid then (getChannel st c).map f else getChannel st c := by
  unfold getChannel modifyChannel alookup
  exact lookup_map_ite st.channels c cid f

theorem getChannel_postSystemMessage (st : MgrState) (cid c : String) (b : Body) :
    getChannel (postSystemMessage st cid b) c =
      if c = cid then
        (getChannel st c).map (fun ch => { ch with messages := ch.messages ++
          [⟨st.message_counter + 1, cid, "system", "system", b, st.tick⟩] })
      else getChannel st c := by
  unfold postSystemMessage nextMessageId drawTs
  exact getChannel_modifyChannel _ cid c _

theorem modify_slots_preserves (st : MgrState) (cid c : String) (slotId : String)
    (fn : Slot → Slot) :
    (getChannel (modifyChannel st cid
        (fun ch => { ch with slots := setSlotFirst ch.slots slotId fn })) c).map
      Channel.messages = (getChannel st c).map Channel.messages := by
  rw [getChannel_modifyChannel]
  by_cases hc : c = cid
  · rw [if_pos hc]
    cases getChannel st c <;> simp
  · rw [if_neg hc]

/-- A successfully applied admin op never touches messages, the id counter
or the clock (it only rewrites slots or the channel name). -/
theorem applyOp_preserves (st st' : MgrState) (cid : String) (op : AdminOp) (c : String)
    (h : applyOp st cid op = .ok st') :
    (getChannel st' c).map Channel.messages = (getChannel st c).map Channel.messages ∧
    st'.message_counter = st.message_counter ∧ st'.tick = st.tick := by
  unfold applyOp at h
  cases hch : getChannel st cid with
  | none => rw [hch] at h; exact absurd h (by simp)
  | some ch =>
    rw [hch] at h
    cases op with
    | set_bot slotId botName =>
      dsimp only at h
      by_cases hf : (ch.slots.find? (fun s => s.slot_id == slotId)).isNone
      · rw [if_pos hf] at h; exact absurd h (by simp)
      · rw [if_neg hf] at h
        injection h with h2
        subst h2
        exact ⟨modify_slots_preserves st cid c slotId _, rfl, rfl⟩
    | remove_bot slotId =>
      dsimp only at h
      by_cases hf : (ch.slots.find? (fun s => s.slot_id == slotId)).isNone
      · rw [if_pos hf] at h; exact absurd h (by simp)
      · rw [if_neg hf] at h
        injection h with h2
        subst h2
        exact ⟨modify_slots_preserves st cid c slotId _, rfl, rfl⟩
    | yield_slot slotId toKind =>
      dsimp only at h
      by_cases hf : (ch.slots.find? (fun s => s.slot_id == slotId)).isNone
      · rw [if_pos hf] at h; exact absurd h (by simp)
      · rw [if_neg hf] at h
        injection h with h2
        subst h2
        exact ⟨modify_slots_preserves st cid c slotId _, rfl, rfl⟩
    | set_admin slotId adm =>
      dsimp only at h
      by_cases hf : (ch.slots.find? (fun s => s.slot_id == slotId)).isNone
      · rw [if_pos hf] at h; exact absurd h (by simp)
      · rw [if_neg hf] at h
        injection h with h2
        subst h2
        exact ⟨modify_slots_preserves st cid c slotId _, rfl, rfl⟩
    | rename newName =>
      dsimp only at h
      injection h with h2
      subst h2
      refine ⟨?_, rfl, rfl⟩
      rw [getChannel_modifyChannel]
      by_cases hc : c = cid
      · rw [if_pos hc]
        cases getChannel st c <;> simp
      · rw [if_neg hc]
    | unknown t =>
      dsimp only at h
      exact absurd h (by simp)

theorem applyOps_append_ok (cid : String) (ops₁ : List AdminOp) :
    ∀ (st st₁ : MgrState) (rest : List AdminOp),
    applyOps st cid ops₁ = (.ok (), st₁) →
    applyOps st cid (ops₁ ++ rest) = applyOps st₁ cid rest := by
  induction ops₁ with
  | nil =>
    intro st st₁ rest h
    simp only [applyOps, Prod.mk.injEq] at h
    rw [List.nil_append, h.2]
  | cons op ops ih =>
    intro st st₁ rest h
    simp only [applyOps, List.cons_append] at h ⊢
    cases hop : applyOp st cid op with
    | error e => rw [hop] at h; exact absurd h (by simp)
    | ok st2 =>
      rw [hop] at h
      dsimp only at h ⊢
      exact ih _ _ _ h

/-- The op loop posts exactly one `<op_type>_applied` system message per
applied op, in order. -/
theorem applyOps_messages (cid : String) (ops : List AdminOp) :
    ∀ (st st' : MgrState) (ch ch' : Channel),
    applyOps st cid ops = (.ok (), st') →
    getChannel st cid = some ch → getChannel st' cid = some ch' →
    ch'.messages.map (fun m => (m.sender, m.kind, m.body)) =
      ch.messages.map (fun m => (m.sender, m.kind, m.body)) ++
      ops.map (fun op => ("system", "system", Body.opApplied (opTypeStr op) op)) := by
  induction ops with
  | nil =>
    intro st st' ch ch' h hch hch'
    simp only [applyOps, Prod.mk.injEq] at h
    rw [h.2] at hch
    rw [hch] at hch'
    injection hch' with h2
    rw [h2, List.map_nil, List.append_nil]
  | cons op ops ih =>
    intro st st' ch ch' h hch hch'
    simp only [applyOps] at h
    cases hop : applyOp st cid op with
    | error e => rw [hop] at h; exact absurd h (by simp)
    | ok st2 =>
      rw [hop] at h
      obtain ⟨hmsg, -, -⟩ := applyOp_preserves st st2 cid op cid hop
      rw [hch] at hmsg
      cases hch2 : getChannel st2 cid with
      | none => rw [hch2] at hmsg; exact absurd hmsg (by simp)
      | some ch2 =>
        rw [hch2] at hmsg
        injection hmsg with hmsg2
        have hch3 : getChannel (postSystemMessage st2 cid
            (.opApplied (opTypeStr op) op)) cid = some { ch2 with messages := ch2.messages ++
              [⟨st2.message_counter + 1, cid, "system", "system",
                .opApplied (opTypeStr op) op, st2.tick⟩] } := by
          rw [getChannel_postSystemMessage, if_pos rfl, hch2]
          rfl
        have := ih _ _ _ _ h hch3 hch'
        rw [this]
        simp only [List.map_append, hmsg2, List.map_cons, List.map_nil]
        simp

/-- Counterexample for C5: a two-op sequence `[rename "x", bogus]` by an
admin sender fails with BAD_OP, yet the channel keeps the renamed name and
one extra `rename_applied` system message — the call is not atomic. -/
theorem C5_counterexample :
    (updateChannel demoState "chnB" "bot:CustomBot"
      [.rename "x", .unknown "bogus"]).1 = .error "BAD_OP: bogus" ∧
    ((getChannel (updateChannel demoState "chnB" "bot:CustomBot"
      [.rename "x", .unknown "bogus"]).2 "chnB").map Channel.name) = some "x" ∧
    ((getChannel demoState "chnB").map Channel.name) = some "G" ∧
    ((getChannel (updateChannel demoState "chnB" "bot:CustomBot"
      [.rename "x", .unknown "bogus"]).2 "chnB").map
        (fun c => c.messages.length)) = some 3 ∧
    ((getChannel demoState "chnB").map (fun c => c.messages.length)) = some 2 :=
  ⟨rfl, rfl, rfl, rfl, rfl⟩

/-- Claim C5 (amended).  `update_channel` applies its ops sequentially, not
atomically: if a prefix succeeds and the next op is rejected, the call
fails with that op's error while every op of the prefix stays applied,
including its system messages (first conjunct); on success, exactly one
system message of type `<op_type>_applied` carrying the op record is
appended per op, in order (second conjunct). -/
theorem C5_sequential_prefix :
    (∀ (st : MgrState) (cid sid : String) (ops₁ : List AdminOp) (op : AdminOp)
        (ops₂ : List AdminOp) (u : UpdateOk) (st₁ : MgrState) (e : String),
      updateChannel st cid sid ops₁ = (.ok u, st₁) →
      applyOp st₁ cid op = .error e →
      updateChannel st cid sid (ops₁ ++ op :: ops₂) = (.error e, st₁))
    ∧ (∀ (st : MgrState) (cid sid : String) (ops : List AdminOp) (u : UpdateOk)
        (st' : MgrState) (ch ch' : Channel),
      updateChannel st cid sid ops = (.ok u, st') →
      getChannel st cid = some ch → getChannel st' cid = some ch' →
      ch'.messages.map (fun m => (m.sender, m.kind, m.body)) =
        ch.messages.map (fun m => (m.sender, m.kind, m.body)) ++
        ops.map (fun op => ("system", "system", Body.opApplied (opTypeStr op) op))) := by
  constructor
  · intro st cid sid ops₁ op ops₂ u st₁ e h hop
    unfold updateChannel at h ⊢
    by_cases h1 : (getChannel st cid).isNone
    · rw [if_pos h1] at h; exact absurd h (by simp)
    · rw [if_neg h1] at h ⊢
      by_cases h2 : (!isAdmin st cid sid) = true
      · rw [if_pos h2] at h; exact absurd h (by simp)
      · rw [if_neg h2] at h ⊢
        cases hops : applyOps st cid ops₁ with
        | mk fst snd =>
          rw [hops] at h
          cases fst with
          | error e2 => exact absurd h (by simp)
          | ok uu =>
            simp only [Prod.mk.injEq] at h
            have hsnd : snd = st₁ := h.2
            subst hsnd
            rw [applyOps_append_ok cid ops₁ st snd (op :: ops₂) hops]
            simp only [applyOps, hop]
  · intro st cid sid ops u st' ch ch' h hch hch'
    unfold updateChannel at h
    by_cases h1 : (getChannel st cid).isNone
    · rw [if_pos h1] at h; exact absurd h (by simp)
    · rw [if_neg h1] at h
      by_cases h2 : (!isAdmin st cid sid) = true
      · rw [if_pos h2] at h; exact absurd h (by simp)
      · rw [if_neg h2] at h
        cases hops : applyOps st cid ops with
        | mk fst snd =>
          rw [hops] at h
          cases fst with
          | error e2 => exact absurd h (by simp)
          | ok uu =>
            simp only [Prod.mk.injEq] at h
            have hsnd : snd = st' := h.2
            subst hsnd
            exact applyOps_messages cid ops st snd ch ch' hops hch hch'

/-- Witness for C5 at the concrete scenario (rename applied, bogus op
aborts with the rename retained). -/
theorem C5_witness :
    updateChannel demoState "chnB" "bot:CustomBot"
        ([AdminOp.rename "x"] ++ AdminOp.unknown "bogus" :: []) =
      (.error "BAD_OP: bogus",
        (updateChannel demoState "chnB" "bot:CustomBot" [AdminOp.rename "x"]).2) :=
  C5_sequential_prefix.1 demoState "chnB" "bot:CustomBot" [AdminOp.rename "x"]
    (AdminOp.unknown "bogus") [] _ _ _ (by rfl) (by rfl)

/-- Membership rule the spec asserts for bot senders ("a bot is attached in
that channel whose synthesized identifier matches"), modelled from the
spec wording for comparison with the source's `_is_member`. -/
def botIdentifierMatches (st : MgrState) (cid sid : String) : Bool :=
  match alookup st.bot_instances cid with
  | none => false
  | some insts => insts.any (fun p =>
      ("bot:" ++ p.2.bot_def.name) == sid || ("bot:" ++ p.2.bot_id) == sid)

/-- Counterexample for C6: in a channel whose only attached bot is
`CustomBot` (slot filled by `bot:CustomBot`), the sender `bot:mallory`
matches no attached bot's synthesized identifier, yet `_is_member` accepts
it, because the source admits any `bot:`-prefixed sender as soon as some
slot is bot-filled. -/
theorem C6_counterexample :
    isMember demoState "chnB" "bot:mallory" = true ∧
    botIdentifierMatches demoState "chnB" "bot:mallory" = false := ⟨rfl, rfl⟩

/-- Claim C6 (amended).  A sender of the form `bot:...` is accepted by
`_is_member` iff some slot of the channel has a non-empty `filled_by` that
itself starts with `bot:` (or equals the sender, which is subsumed) — the
check is per-channel, not per-bot, so any `bot:` sender is a member as
soon as any bot slot is filled, and is rejected with NOT_MEMBER only when
no slot is bot-filled. -/
theorem C6_bot_member_iff (st : MgrState) (cid sid : String) (ch : Channel)
    (hch : getChannel st cid = some ch) (hsid : pyStartsWith sid "bot:" = true) :
    isMember st cid sid = true ↔
      ∃ slot ∈ ch.slots, ∃ f, slot.filled_by = some f ∧ f ≠ "" ∧
        pyStartsWith f "bot:" = true := by
  unfold isMember
  simp only [hch]
  rw [if_pos hsid, List.any_eq_true]
  constructor
  · rintro ⟨slot, hmem, hcond⟩
    cases hfb : slot.filled_by with
    | none => rw [hfb] at hcond; simp [optTruthy] at hcond
    | some f =>
      rw [hfb] at hcond
      simp only [optTruthy, Bool.and_eq_true, Bool.or_eq_true] at hcond
      obtain ⟨hne, hor⟩ := hcond
      refine ⟨slot, hmem, f, hfb, by simpa using hne, ?_⟩
      rcases hor with heq | hsw
      · have hf : f = sid := by simpa using heq
        rw [hf]
        exact hsid
      · simpa using hsw
  · rintro ⟨slot, hmem, f, hfb, hne, hsw⟩
    refine ⟨slot, hmem, ?_⟩
    rw [hfb]
    simp only [optTruthy, Bool.and_eq_true, Bool.or_eq_true]
    exact ⟨by simpa using hne, Or.inr (by simpa using hsw)⟩

/-- Witness for C6: any `bot:` sender is accepted in `demoState`. -/
theorem C6_witness : isMember demoState "chnB" "bot:anyone" = true :=
  (C6_bot_member_iff demoState "chnB" "bot:anyone" _ (by rfl) (by rfl)).mpr
    ⟨⟨"s0", "bot", "ref", some "bot:CustomBot", true⟩, by decide,
      "bot:CustomBot", rfl, by decide, by decide⟩

/-- Claim C9.  The claim (from the spec) says `sync_messages` with
`timeout_ms > 0` and no new messages blocks until a message arrives, the
deadline expires, or the session is cancelled.  The code refutes it: the
long-poll branch is a literal no-op (`pass`, with the comment "real
implementation would use threading.Event"), so the reply is computed
immediately and is completely independent of `timeout_ms`.  The source
comment and docstring show the spec is the intent and the code a stub, so
this is a code bug. -/
theorem C9_sync_ignores_timeout (st : MgrState) (cid sid : String) (cursor : Option Int)
    (t₁ t₂ : Int) :
    syncMessages st cid sid cursor t₁ = syncMessages st cid sid cursor t₂ := rfl

/-! ### Message-id invariants (C10) -/

def chanIds (ch : Channel) : List Nat := ch.messages.map (fun m => m.id)

/-- Every message id in every channel of the manager, in table order. -/
def allIds (st : MgrState) : List Nat := (st.channels.map (fun p => chanIds p.2)).flatten

/-- The inductive invariant: channel keys are unique, all ids are globally
distinct and bounded by the counter, and each log is strictly increasing. -/
def MsgInv (st : MgrState) : Prop :=
  (st.channels.map Prod.fst).Nodup ∧
  (allIds st).Nodup ∧
  (∀ i ∈ allIds st, 1 ≤ i ∧ i ≤ st.message_counter) ∧
  (∀ p ∈ st.channels, List.Chain' (· < ·) (chanIds p.2))

theorem map_ite_fst {β : Type} (l : List (String × β)) (cid : String) (f : β → β) :
    (l.map (fun p => if p.1 == cid then (p.1, f p.2) else p)).map Prod.fst =
      l.map Prod.fst := by
  induction l with
  | nil => rfl
  | cons p rest ih =>
    simp only [List.map_cons]
    by_cases h : (p.1 == cid) = true
    · rw [if_pos h, ih]
    · rw [if_neg h, ih]

theorem map_ite_vals {γ : Type} (g : Channel → γ) (l : List (String × Channel))
    (cid : String) (f : Channel → Channel) (hf : ∀ ch, g (f ch) = g ch) :
    (l.map (fun p => if p.1 == cid then (p.1, f p.2) else p)).map (fun p => g p.2) =
      l.map (fun p => g p.2) := by
  induction l with
  | nil => rfl
  | cons p rest ih =>
    simp only [List.map_cons]
    by_cases h : (p.1 == cid) = true
    · rw [if_pos h, ih]
      show g (f p.2) :: _ = _
      rw [hf p.2]
    · rw [if_neg h, ih]

/-- A channel modification that keeps every log intact keeps all ids, all
keys, and (pointwise) all logs. -/
theorem modify_preserves_ids (st : MgrState) (cid : String) (f : Channel → Channel)
    (hf : ∀ ch, chanIds (f ch) = chanIds ch) :
    allIds (modifyChannel st cid f) = allIds st ∧
    (modifyChannel st cid f).channels.map Prod.fst = st.channels.map Prod.fst ∧
    (∀ p ∈ (modifyChannel st cid f).channels, ∃ q ∈ st.channels,
      chanIds p.2 = chanIds q.2) := by
  refine ⟨?_, map_ite_fst st.channels cid f, ?_⟩
  · unfold allIds modifyChannel
    rw [map_ite_vals (fun ch => chanIds ch) st.channels cid f hf]
  · intro p hp
    obtain ⟨q, hq, hpq⟩ := List.mem_map.mp hp
    by_cases h : (q.1 == cid) = true
    · rw [if_pos h] at hpq
      exact ⟨q, hq, by rw [← hpq]; exact hf q.2⟩
    · rw [if_neg h] at hpq
      exact ⟨q, hq, by rw [hpq]⟩

/-- `MsgInv` transfers through changes that leave channels and the counter
alone (tick, invites, session slots, bot instances). -/
theorem MsgInv_of_same_channels (st st' : MgrState)
    (hch : st'.channels = st.channels) (hc : st'.message_counter = st.message_counter)
    (h : MsgInv st) : MsgInv st' := by
  obtain ⟨h1, h2, h3, h4⟩ := h
  exact ⟨hch ▸ h1, by unfold allIds; rw [hch]; exact h2,
    by unfold allIds; rw [hch, hc]; exact h3, by rw [hch]; exact h4⟩

/-- `MsgInv` reads only `channels` and `message_counter`; the other fields
are interchangeable. -/
theorem MsgInv_fields {chs : List (String × Channel)} {mc : Nat}
    {i1 s1 i2 s2 : List (String × (String × String))}
    {b1 b2 : List (String × List (String × BotInstance))} {t1 t2 : Nat}
    (h : MsgInv ⟨chs, i1, s1, mc, b1, t1⟩) : MsgInv ⟨chs, i2, s2, mc, b2, t2⟩ := by
  obtain ⟨h1, h2, h3, h4⟩ := h
  exact ⟨h1, h2, h3, h4⟩

theorem MsgInv_modify (st : MgrState) (cid : String) (f : Channel → Channel)
    (hf : ∀ ch, chanIds (f ch) = chanIds ch) (h : MsgInv st) :
    MsgInv (modifyChannel st cid f) := by
  obtain ⟨h1, h2, h3, h4⟩ := h
  obtain ⟨ha, hk, hp⟩ := modify_preserves_ids st cid f hf
  refine ⟨hk ▸ h1, ha ▸ h2, ?_, ?_⟩
  · intro i hi
    rw [ha] at hi
    exact h3 i hi
  · intro p hp2
    obtain ⟨q, hq, hpq⟩ := hp p hp2
    rw [hpq]
    exact h4 q hq

theorem mem_flatten_ids_ite {L : List (String × Channel)} {i : Nat} {cid : String}
    {f : Channel → Channel} {extra : Nat}
    (hx : ∀ ch, chanIds (f ch) = chanIds ch ++ [extra])
    (h : i ∈ ((L.map (fun p => if p.1 == cid then (p.1, f p.2) else p)).map
      (fun p => chanIds p.2)).flatten) :
    i ∈ (L.map (fun p => chanIds p.2)).flatten ∨ i = extra := by
  obtain ⟨s, hs, hi⟩ := List.mem_flatten.mp h
  obtain ⟨p, hp, hps⟩ := List.mem_map.mp hs
  obtain ⟨q, hq, hpq⟩ := List.mem_map.mp hp
  by_cases hb : (q.1 == cid) = true
  · rw [if_pos hb] at hpq
    rw [← hps, ← hpq] at hi
    rw [hx q.2, List.mem_append] at hi
    rcases hi with hi | hi
    · exact Or.inl (List.mem_flatten.mpr ⟨chanIds q.2, List.mem_map_of_mem _ hq, hi⟩)
    · exact Or.inr (by simpa using hi)
  · rw [if_neg hb] at hpq
    rw [← hps, ← hpq] at hi
    exact Or.inl (List.mem_flatten.mpr ⟨chanIds q.2, List.mem_map_of_mem _ hq, hi⟩)

theorem map_ite_id {β : Type} (l : List (String × β)) (cid : String) (f : β → β)
    (h : ∀ p ∈ l, (p.1 == cid) = false) :
    l.map (fun p => if p.1 == cid then (p.1, f p.2) else p) = l := by
  induction l with
  | nil => rfl
  | cons p rest ih =>
    rw [List.map_cons, if_neg (by rw [h p (List.mem_cons_self p rest)]; simp),
      ih (fun q hq => h q (List.mem_cons_of_mem p hq))]

/-- Appending a strictly larger element keeps a chain strictly increasing. -/
theorem chain'_append_singleton {l : List Nat} {x : Nat}
    (h : List.Chain' (· < ·) l) (hx : ∀ i ∈ l, i < x) :
    List.Chain' (· < ·) (l ++ [x]) := by
  rw [List.chain'_append]
  refine ⟨h, List.chain'_singleton x, ?_⟩
  intro a ha y hy
  have hyx : y = x := (by simpa using hy : x = y).symm
  rw [hyx]
  exact hx a (List.mem_of_mem_getLast? ha)

/-- The per-channel effect of posting: append one message. -/
def appendMsg (msg : Message) (ch : Channel) : Channel :=
  { ch with messages := ch.messages ++ [msg] }

/-- Core append lemma: adding one message with id `c + 1` to channel `cid`
of a table whose ids are all in `[1, c]` preserves the invariant with the
new bound `c + 1`. -/
theorem append_msg_list_inv (cid : String) (msg : Message) (c : Nat)
    (hid : msg.id = c + 1) :
    ∀ L : List (String × Channel),
    (L.map Prod.fst).Nodup →
    ((L.map (fun p => chanIds p.2)).flatten).Nodup →
    (∀ i ∈ (L.map (fun p => chanIds p.2)).flatten, 1 ≤ i ∧ i ≤ c) →
    (∀ p ∈ L, List.Chain' (· < ·) (chanIds p.2)) →
    ((((L.map (fun p => if p.1 == cid then
        (p.1, appendMsg msg p.2) else p)).map
      (fun p => chanIds p.2)).flatten).Nodup ∧
    (∀ i ∈ ((L.map (fun p => if p.1 == cid then
        (p.1, appendMsg msg p.2) else p)).map
      (fun p => chanIds p.2)).flatten, 1 ≤ i ∧ i ≤ c + 1) ∧
    (∀ p ∈ L.map (fun p => if p.1 == cid then
        (p.1, appendMsg msg p.2) else p),
      List.Chain' (· < ·) (chanIds p.2))) := by
  have happ : ∀ ch : Channel,
      chanIds (appendMsg msg ch) = chanIds ch ++ [msg.id] := by
    intro ch
    unfold appendMsg chanIds
    rw [List.map_append]
    rfl
  intro L
  induction L with
  | nil =>
    intro _ _ _ _
    refine ⟨List.nodup_nil, ?_, ?_⟩
    · intro i hi
      simp at hi
    · intro p hp
      simp at hp
  | cons p rest ih =>
    intro hkeys hnodup hbound hchain
    rw [List.map_cons, List.nodup_cons] at hkeys
    rw [List.map_cons, List.flatten_cons] at hnodup hbound
    rw [List.nodup_append] at hnodup
    obtain ⟨hnd1, hnd2, hdisj⟩ := hnodup
    have hbound1 : ∀ i ∈ chanIds p.2, 1 ≤ i ∧ i ≤ c := by
      intro i hi; exact hbound i (List.mem_append_left _ hi)
    have hbound2 : ∀ i ∈ (rest.map (fun p => chanIds p.2)).flatten, 1 ≤ i ∧ i ≤ c := by
      intro i hi; exact hbound i (List.mem_append_right _ hi)
    by_cases hb : (p.1 == cid) = true
    · -- the head channel receives the message; by key uniqueness the rest
      -- of the table is untouched
      have hp1 : p.1 = cid := by simpa using hb
      have hrest : ∀ q ∈ rest, (q.1 == cid) = false := by
        intro q hq
        have : q.1 ≠ cid := fun hc => hkeys.1 (by
          rw [hp1, ← hc]; exact List.mem_map_of_mem _ hq)
        simp [this]
      rw [List.map_cons, if_pos hb, map_ite_id rest cid _ hrest,
        List.map_cons, List.flatten_cons, happ p.2]
      have hfresh : ∀ i ∈ chanIds p.2 ++ (rest.map (fun p => chanIds p.2)).flatten,
          i ≠ msg.id := by
        intro i hi
        rw [hid]
        rcases List.mem_append.mp hi with hi | hi
        · exact Nat.ne_of_lt (Nat.lt_succ_of_le (hbound1 i hi).2)
        · exact Nat.ne_of_lt (Nat.lt_succ_of_le (hbound2 i hi).2)
      refine ⟨?_, ?_, ?_⟩
      · have hperm : List.Perm
            ((chanIds p.2 ++ [msg.id]) ++ (rest.map (fun p => chanIds p.2)).flatten)
            ((chanIds p.2 ++ (rest.map (fun p => chanIds p.2)).flatten) ++ [msg.id]) := by
          rw [List.append_assoc, List.append_assoc]
          exact List.Perm.append_left _ List.perm_append_comm
        refine hperm.nodup_iff.mpr ?_
        rw [List.nodup_append]
        refine ⟨List.nodup_append.mpr ⟨hnd1, hnd2, hdisj⟩, List.nodup_singleton _, ?_⟩
        intro a ha hmem
        have : a = msg.id := by simpa using hmem
        exact hfresh a ha this
      · intro i hi
        rcases List.mem_append.mp hi with hi | hi
        · rcases List.mem_append.mp hi with hi | hi
          · obtain ⟨h1, h2⟩ := hbound1 i hi
            exact ⟨h1, Nat.le_succ_of_le h2⟩
          · have : i = msg.id := by simpa using hi
            rw [this, hid]
            exact ⟨Nat.succ_le_succ (Nat.zero_le c), le_refl _⟩
        · obtain ⟨h1, h2⟩ := hbound2 i hi
          exact ⟨h1, Nat.le_succ_of_le h2⟩
      · intro q hq
        rcases List.mem_cons.mp hq with rfl | hq2
        · rw [happ p.2]
          refine chain'_append_singleton (hchain p (List.mem_cons_self p rest)) ?_
          intro i hi
          rw [hid]
          exact Nat.lt_succ_of_le (hbound1 i hi).2
        · exact hchain q (List.mem_cons_of_mem p hq2)
    · -- the head channel is untouched; recurse on the rest
      rw [List.map_cons, if_neg hb, List.map_cons, List.flatten_cons]
      have hchain2 : ∀ q ∈ rest, List.Chain' (· < ·) (chanIds q.2) := by
        intro q hq; exact hchain q (List.mem_cons_of_mem p hq)
      obtain ⟨ihn, ihb, ihc⟩ := ih hkeys.2 hnd2 hbound2 hchain2
      refine ⟨?_, ?_, ?_⟩
      · rw [List.nodup_append]
        refine ⟨hnd1, ihn, ?_⟩
        intro a ha hmem
        rcases mem_flatten_ids_ite (f := appendMsg msg) (fun ch => happ ch) hmem with
          hmem2 | hmem2
        · exact hdisj ha hmem2
        · have : a ≤ c := (hbound1 a ha).2
          rw [hmem2, hid] at this
          omega
      · intro i hi
        rcases List.mem_append.mp hi with hi | hi
        · obtain ⟨h1, h2⟩ := hbound1 i hi
          exact ⟨h1, Nat.le_succ_of_le h2⟩
        · exact ihb i hi
      · intro q hq
        rcases List.mem_cons.mp hq with hq1 | hq2
        · rw [hq1]
          exact hchain p (List.mem_cons_self p rest)
        · exact ihc q hq2

/-- Posting a message (the shared shape of `post_message` and
`_post_system_message`: counter bump, tick draw, append) preserves the
invariant. -/
theorem MsgInv_appendState (st : MgrState) (cid : String) (msg : Message) (t2 : Nat)
    (hid : msg.id = st.message_counter + 1) (h : MsgInv st) :
    MsgInv (modifyChannel { st with message_counter := st.message_counter + 1, tick := t2 }
      cid (fun ch => { ch with messages := ch.messages ++ [msg] })) := by
  obtain ⟨h1, h2, h3, h4⟩ := h
  obtain ⟨hn, hb2, hc2⟩ :=
    append_msg_list_inv cid msg st.message_counter hid st.channels h1 h2 h3 h4
  refine ⟨?_, hn, hb2, hc2⟩
  show ((st.channels.map (fun p =>
    if p.1 == cid then (p.1, appendMsg msg p.2) else p)).map Prod.fst).Nodup
  rw [map_ite_fst]
  exact h1

theorem MsgInv_postSystemMessage (st : MgrState) (cid : String) (b : Body)
    (h : MsgInv st) : MsgInv (postSystemMessage st cid b) :=
  MsgInv_appendState st cid ⟨st.message_counter + 1, cid, "system", "system", b, st.tick⟩
    (st.tick + 1) rfl h

theorem MsgInv_postMessage (st : MgrState) (cid sid kind : String) (body : Body)
    (h : MsgInv st) : MsgInv (postMessage st cid sid kind body).2 := by
  unfold postMessage
  by_cases h1 : ((getChannel st cid).isNone) = true
  · rw [if_pos h1]; exact h
  · rw [if_neg h1]
    by_cases h2 : (!isMember st cid sid) = true
    · rw [if_pos h2]; exact h
    · rw [if_neg h2]
      exact MsgInv_appendState st cid ⟨st.message_counter + 1, cid, sid, kind, body, st.tick⟩
        (st.tick + 1) rfl h

/-- The state produced by a fresh `join_channel` bind (slot filled, session
recorded, invite deleted). -/
def joinBindState (st : MgrState) (cid slotId sid code : String) : MgrState :=
  let st1 := modifyChannel st cid (fun c =>
    { c with slots :=
        setSlotFirst c.slots slotId (fun s => { s with filled_by := some sid }) })
  { st1 with session_slots := aset st1.session_slots sid (cid, slotId),
             invites := aremove st1.invites code }

theorem MsgInv_join_bind (st : MgrState) (cid slotId sid code : String) (h : MsgInv st) :
    MsgInv (joinBindState st cid slotId sid code) := by
  unfold joinBindState
  dsimp only
  refine MsgInv_of_same_channels (modifyChannel st cid (fun c =>
    { c with slots :=
        setSlotFirst c.slots slotId (fun s => { s with filled_by := some sid }) })) _
    rfl rfl ?_
  refine MsgInv_modify st cid _ ?_ h
  intro ch
  rfl

theorem MsgInv_joinChannel (st : MgrState) (code sid : String) (h : MsgInv st) :
    MsgInv (joinChannel st code sid).2 := by
  unfold joinChannel
  split
  · exact h
  · split
    · exact h
    · split
      · exact h
      · split
        · split
          · exact h
          · exact h
        · dsimp only
          exact MsgInv_join_bind st _ _ sid code h

theorem MsgInv_applyOp (st st' : MgrState) (cid : String) (op : AdminOp)
    (h : applyOp st cid op = .ok st') (hInv : MsgInv st) : MsgInv st' := by
  unfold applyOp at h
  cases hch : getChannel st cid with
  | none => rw [hch] at h; exact absurd h (by simp)
  | some ch =>
    rw [hch] at h
    cases op with
    | set_bot slotId botName =>
      dsimp only at h
      by_cases hf : ((ch.slots.find? (fun s => s.slot_id == slotId)).isNone) = true
      · rw [if_pos hf] at h; exact absurd h (by simp)
      · rw [if_neg hf] at h
        injection h with h2
        subst h2
        refine MsgInv_modify st cid _ ?_ hInv
        intro ch
        rfl
    | remove_bot slotId =>
      dsimp only at h
      by_cases hf : ((ch.slots.find? (fun s => s.slot_id == slotId)).isNone) = true
      · rw [if_pos hf] at h; exact absurd h (by simp)
      · rw [if_neg hf] at h
        injection h with h2
        subst h2
        refine MsgInv_modify st cid _ ?_ hInv
        intro ch
        rfl
    | yield_slot slotId toKind =>
      dsimp only at h
      by_cases hf : ((ch.slots.find? (fun s => s.slot_id == slotId)).isNone) = true
      · rw [if_pos hf] at h; exact absurd h (by simp)
      · rw [if_neg hf] at h
        injection h with h2
        subst h2
        refine MsgInv_modify st cid _ ?_ hInv
        intro ch
        rfl
    | set_admin slotId adm =>
      dsimp only at h
      by_cases hf : ((ch.slots.find? (fun s => s.slot_id == slotId)).isNone) = true
      · rw [if_pos hf] at h; exact absurd h (by simp)
      · rw [if_neg hf] at h
        injection h with h2
        subst h2
        refine MsgInv_modify st cid _ ?_ hInv
        intro ch
        rfl
    | rename newName =>
      dsimp only at h
      injection h with h2
      subst h2
      refine MsgInv_modify st cid _ ?_ hInv
      intro ch
      rfl
    | unknown t =>
      dsimp only at h
      exact absurd h (by simp)

theorem MsgInv_applyOps (cid : String) (ops : List AdminOp) :
    ∀ st : MgrState, MsgInv st → MsgInv (applyOps st cid ops).2 := by
  induction ops with
  | nil => intro st h; exact h
  | cons op rest ih =>
    intro st h
    show MsgInv (applyOps st cid (op :: rest)).2
    unfold applyOps
    cases hop : applyOp st cid op with
    | error e => exact h
    | ok st2 =>
      exact ih _ (MsgInv_postSystemMessage st2 cid _ (MsgInv_applyOp st st2 cid op hop h))

theorem MsgInv_updateChannel (st : MgrState) (cid sid : String) (ops : List AdminOp)
    (h : MsgInv st) : MsgInv (updateChannel st cid sid ops).2 := by
  unfold updateChannel
  by_cases h1 : ((getChannel st cid).isNone) = true
  · rw [if_pos h1]; exact h
  · rw [if_neg h1]
    by_cases h2 : (!isAdmin st cid sid) = true
    · rw [if_pos h2]; exact h
    · rw [if_neg h2]
      have h3 := MsgInv_applyOps cid ops st h
      cases hops : applyOps st cid ops with
      | mk fst snd =>
        rw [hops] at h3
        cases fst with
        | error e => exact h3
        | ok u => exact h3

theorem map_setval_fst {β : Type} (l : List (String × β)) (cid : String) (v : β) :
    (l.map (fun p => if p.1 == cid then (p.1, v) else p)).map Prod.fst = l.map Prod.fst := by
  induction l with
  | nil => rfl
  | cons p rest ih =>
    simp only [List.map_cons]
    by_cases h : (p.1 == cid) = true
    · rw [if_pos h, ih]
    · rw [if_neg h, ih]

theorem flatten_sublist {l₁ l₂ : List (List Nat)} (h : List.Forall₂ (fun a b => List.Sublist a b) l₁ l₂) :
    l₁.flatten.Sublist l₂.flatten := by
  induction h with
  | nil => exact List.Sublist.refl _
  | cons h1 _ ih => exact List.Sublist.append h1 ih

theorem lookup_none_not_mem_keys {β : Type} {l : List (String × β)} {k : String}
    (h : List.lookup k l = none) : k ∉ l.map Prod.fst := by
  induction l with
  | nil => simp
  | cons p rest ih =>
    rw [List.lookup_cons] at h
    cases hb : (k == p.1) with
    | true => rw [hb] at h; exact absurd h (by simp)
    | false =>
      rw [hb] at h
      rw [List.map_cons, List.mem_cons]
      rintro (hk | hk)
      · rw [hk] at hb; simp at hb
      · exact ih h hk

/-- Installing a channel with an empty log (`create_channel`, whether the
key is fresh or overwrites) preserves the invariant. -/
theorem MsgInv_aset (st st' : MgrState) (cid : String) (chNew : Channel)
    (hch : st'.channels = aset st.channels cid chNew)
    (hc : st'.message_counter = st.message_counter)
    (hempty : chNew.messages = [])
    (h : MsgInv st) : MsgInv st' := by
  obtain ⟨h1, h2, h3, h4⟩ := h
  have hids : chanIds chNew = [] := by unfold chanIds; rw [hempty]; rfl
  unfold aset at hch
  by_cases hs : ((List.lookup cid st.channels).isSome) = true
  · rw [if_pos hs] at hch
    have hsub : List.Forall₂ (fun a b => List.Sublist a b)
        ((st.channels.map (fun p => if p.1 == cid then (p.1, chNew) else p)).map
          (fun p => chanIds p.2))
        (st.channels.map (fun p => chanIds p.2)) := by
      clear hch hs h1 h2 h3 h4
      induction st.channels with
      | nil => exact List.Forall₂.nil
      | cons p rest ih =>
        by_cases hb : (p.1 == cid) = true
        · rw [List.map_cons, List.map_cons, if_pos hb, List.map_cons]
          exact List.Forall₂.cons (by rw [hids]; exact List.nil_sublist _) ih
        · rw [List.map_cons, List.map_cons, if_neg hb, List.map_cons]
          exact List.Forall₂.cons (List.Sublist.refl _) ih
    have hsubf : (allIds st').Sublist (allIds st) := by
      unfold allIds
      rw [hch]
      exact flatten_sublist hsub
    refine ⟨?_, hsubf.nodup h2, ?_, ?_⟩
    · rw [hch, map_setval_fst]
      exact h1
    · intro i hi
      rw [hc]
      exact h3 i (hsubf.subset hi)
    · intro p hp
      rw [hch] at hp
      obtain ⟨q, hq, hpq⟩ := List.mem_map.mp hp
      by_cases hb : (q.1 == cid) = true
      · rw [if_pos hb] at hpq
        rw [← hpq]
        show List.Chain' (· < ·) (chanIds chNew)
        rw [hids]
        exact List.chain'_nil
      · rw [if_neg hb] at hpq
        rw [← hpq]
        exact h4 q hq
  · rw [if_neg hs] at hch
    have hnone : List.lookup cid st.channels = none := by
      cases hl : List.lookup cid st.channels with
      | none => rfl
      | some v => rw [hl] at hs; simp at hs
    have hflat : allIds st' = allIds st := by
      unfold allIds
      rw [hch, List.map_append, List.flatten_append, List.map_cons, List.map_nil]
      show _ ++ (chanIds chNew ++ []) = _
      rw [hids]
      simp
    refine ⟨?_, hflat ▸ h2, ?_, ?_⟩
    · rw [hch, List.map_append]
      have : (st.channels.map Prod.fst ++ [(cid, chNew)].map Prod.fst).Nodup := by
        rw [List.nodup_append]
        refine ⟨h1, by simp, ?_⟩
        intro a ha hmem
        have : a = cid := by simpa using hmem
        exact (lookup_none_not_mem_keys hnone) (this ▸ ha)
      exact this
    · intro i hi
      rw [hflat] at hi
      rw [hc]
      exact h3 i hi
    · intro p hp
      rw [hch] at hp
      rcases List.mem_append.mp hp with hp | hp
      · exact h4 p hp
      · have : p = (cid, chNew) := by simpa using hp
        rw [this]
        show List.Chain' (· < ·) (chanIds chNew)
        rw [hids]
        exact List.chain'_nil

theorem MsgInv_createChannel (st : MgrState) (name : String) (specs : List String)
    (bots : List BotSpec) (fc : String) (fi : Nat → String) (h : MsgInv st) :
    MsgInv (createChannel st name specs bots fc fi).2 := by
  unfold createChannel
  dsimp only
  by_cases hb : bots.isEmpty = true
  · rw [if_pos hb]
    exact MsgInv_aset st _ fc _ rfl rfl rfl h
  · rw [if_neg hb]
    exact MsgInv_postSystemMessage _ fc _ (MsgInv_aset st _ fc _ rfl rfl rfl h)

theorem MsgInv_attachBot (st : MgrState) (cid : String) (bd : BotDefinition)
    (ld : Except String Unit) (h : MsgInv st) : MsgInv (attachBot st cid bd ld).2 := by
  unfold attachBot
  by_cases h1 : ((getChannel st cid).isNone) = true
  · rw [if_pos h1]; exact h
  · rw [if_neg h1]
    cases ld with
    | error e => exact h
    | ok _ =>
      dsimp only
      have h2 : MsgInv (modifyChannel
          { st with
            bot_instances := aset st.bot_instances cid
              (((alookup st.bot_instances cid).getD []) ++
                [("bot_" ++ bd.name ++ "_" ++
                    toString ((alookup st.bot_instances cid).getD []).length,
                  { bot_id := "bot_" ++ bd.name ++ "_" ++
                      toString ((alookup st.bot_instances cid).getD []).length,
                    bot_def := bd, created_at := st.tick })]),
            tick := st.tick + 1 } cid
          (fun ch =>
            if (ch.slots.find? (fun s => s.kind == "bot" && s.filled_by.isNone)).isSome then
              { ch with slots := fillFirstUnfilledBot ch.slots bd.name }
            else
              { ch with slots := ch.slots ++
                  [⟨"s" ++ toString ch.slots.length, "bot", "bot:" ++ bd.name,
                    some ("bot:" ++ bd.name), true⟩] })) := by
        refine MsgInv_modify _ cid _ ?_ ?_
        · intro ch
          dsimp only
          split <;> rfl
        · exact MsgInv_fields h
      by_cases hm : manifestTruthy bd.manifest = true
      · rw [if_pos hm]
        exact MsgInv_postSystemMessage _ cid _ (MsgInv_postSystemMessage _ cid _ h2)
      · rw [if_neg hm]
        exact MsgInv_postSystemMessage _ cid _ h2

theorem MsgInv_step (st : MgrState) (e : Event) (h : MsgInv st) :
    MsgInv (stepEvent st e) := by
  cases e with
  | create name specs bots fc fi => exact MsgInv_createChannel st name specs bots fc fi h
  | join code sid => exact MsgInv_joinChannel st code sid h
  | post cid sid kind body => exact MsgInv_postMessage st cid sid kind body h
  | botPost cid botId kind body => exact MsgInv_postMessage st cid _ kind _ h
  | update cid sid ops => exact MsgInv_updateChannel st cid sid ops h
  | attach cid bd ld => exact MsgInv_attachBot st cid bd ld h

theorem MsgInv_runEvents (evs : List Event) : MsgInv (runEvents evs) := by
  have hinit : MsgInv initState := by
    refine ⟨List.nodup_nil, List.nodup_nil, ?_, ?_⟩
    · intro i hi; simp [allIds, initState] at hi
    · intro p hp; simp [initState] at hp
  show MsgInv (evs.foldl stepEvent initState)
  generalize hst : initState = st0 at hinit
  clear hst
  induction evs generalizing st0 with
  | nil => exact hinit
  | cons e rest ih => exact ih _ (MsgInv_step st0 e hinit)

/-- The concrete run exhibiting a non-contiguous per-channel id sequence:
two channels, posts interleaved, channel `chA` ends with ids `[1, 3]`. -/
def interleavedEvents : List Event :=
  [.create "A" ["invite:a"] [] "chA" (fun n => "ainv" ++ toString n),
   .create "B" ["invite:b"] [] "chB" (fun n => "binvX" ++ toString n),
   .join "ainv0" "s1", .join "binvX0" "s2",
   .post "chA" "s1" "user" (.user (.obj [])),
   .post "chB" "s2" "user" (.user (.obj [])),
   .post "chA" "s1" "user" (.user (.obj []))]

/-- Claim C10.  All message ids come from the single per-manager counter
incremented under the lock: across every channel of the manager ids are
globally distinct and bounded by the counter, each channel's log is
strictly increasing in append order (first conjunct, over every event
trace); and a channel's id sequence need not be contiguous when other
channels also receive messages (second conjunct: the interleaved run ends
with channel `chA` holding exactly ids `[1, 3]`). -/
theorem C10_message_ids :
    (∀ evs : List Event,
      (allIds (runEvents evs)).Nodup ∧
      (∀ i ∈ allIds (runEvents evs), 1 ≤ i ∧ i ≤ (runEvents evs).message_counter) ∧
      (∀ p ∈ (runEvents evs).channels, List.Chain' (· < ·) (chanIds p.2)))
    ∧ ((getChannel (runEvents interleavedEvents) "chA").map chanIds = some [1, 3]
       ∧ (2 : Nat) ∉ ([1, 3] : List Nat)) := by
  constructor
  · intro evs
    obtain ⟨h1, h2, h3, h4⟩ := MsgInv_runEvents evs
    exact ⟨h2, h3, h4⟩
  · exact ⟨rfl, by decide⟩

/-- Witness for C10 at the interleaved run: id 1 is present and within the
counter bound. -/
theorem C10_witness :
    1 ≤ 1 ∧ 1 ≤ (runEvents interleavedEvents).message_counter :=
  (C10_message_ids.1 interleavedEvents).2.1 1 (by decide)

/-! ### Content-addressed hashing (C8) -/

/-- The content `compute_code_hash` hashes: the inline source if truthy,
else `code_ref or ""` (lines 300-303). -/
def codeContent (bd : BotDefinition) : String :=
  match bd.inline_code with
  | some c => if c == "" then bd.code_ref.getD "" else c
  | none => bd.code_ref.getD ""

theorem computeCodeHash_eq (bd : BotDefinition) :
    computeCodeHash bd = "sha256:" ++ sha256hex (codeContent bd) := rfl

theorem lookup_append_right {β : Type} (l : List (String × β)) (k : String) (v : β)
    (h : List.lookup k l = none) : List.lookup k (l ++ [(k, v)]) = some v := by
  induction l with
  | nil => simp [List.lookup_cons]
  | cons p rest ih =>
    rw [List.lookup_cons] at h
    cases hb : (k == p.1) with
    | true => rw [hb] at h; exact absurd h (by simp)
    | false =>
      rw [hb] at h
      rw [List.cons_append, List.lookup_cons, hb]
      exact ih h

theorem lookup_map_setval {β : Type} (l : List (String × β)) (k : String) (v : β) :
    List.lookup k (l.map (fun p => if p.1 == k then (p.1, v) else p)) =
    (List.lookup k l).map (fun _ => v) := by
  induction l with
  | nil => rfl
  | cons p rest ih =>
    obtain ⟨pk, pv⟩ := p
    simp only [List.map_cons]
    by_cases hp : (pk == k) = true
    · rw [if_pos hp]
      have hp2 : pk = k := by simpa using hp
      subst hp2
      simp [List.lookup_cons]
    · rw [if_neg hp]
      have hk : ¬ k = pk := fun hd => hp (by simp [hd])
      have hb : (k == pk) = false := beq_false_of_ne hk
      simp only [List.lookup_cons, hb]
      exact ih

theorem lookup_aset_self {β : Type} (l : List (String × β)) (k : String) (v : β) :
    List.lookup k (aset l k v) = some v := by
  unfold aset
  by_cases h : ((List.lookup k l).isSome) = true
  · rw [if_pos h, lookup_map_setval]
    obtain ⟨x, hx⟩ := Option.isSome_iff_exists.mp h
    rw [hx]
    rfl
  · rw [if_neg h]
    have hnone : List.lookup k l = none := by
      cases hl : List.lookup k l with
      | none => rfl
      | some x => rw [hl] at h; simp at h
    exact lookup_append_right l k v hnone

theorem getChannel_post_self (st : MgrState) (cid : String) (b : Body) (ch : Channel)
    (h : getChannel st cid = some ch) :
    getChannel (postSystemMessage st cid b) cid = some { ch with messages :=
      ch.messages ++ [⟨st.message_counter + 1, cid, "system", "system", b, st.tick⟩] } := by
  rw [getChannel_postSystemMessage, if_pos rfl, h]
  rfl

/-- `demoState` before the bot is attached. -/
def demoPreState : MgrState :=
  runEvents [.create "G" ["bot:ref", "invite:p"] [] "chnB" (fun n => "binv" ++ toString n)]

/-- The bot id `attach_bot` mints (line 134). -/
def attachBotId (st : MgrState) (cid : String) (bd : BotDefinition) : String :=
  "bot_" ++ bd.name ++ "_" ++ toString ((alookup st.bot_instances cid).getD []).length

/-- The per-channel instance list after the new instance is appended. -/
def attachNewInsts (st : MgrState) (cid : String) (bd : BotDefinition) :
    List (String × BotInstance) :=
  ((alookup st.bot_instances cid).getD []) ++
    [(attachBotId st cid bd,
      { bot_id := attachBotId st cid bd, bot_def := bd, created_at := st.tick })]

/-- The slot update `attach_bot` applies to the channel (lines 143-162). -/
def attachSlotF (bd : BotDefinition) (ch : Channel) : Channel :=
  if (ch.slots.find? (fun s => s.kind == "bot" && s.filled_by.isNone)).isSome then
    { ch with slots := fillFirstUnfilledBot ch.slots bd.name }
  else
    { ch with slots := ch.slots ++
        [⟨"s" ++ toString ch.slots.length, "bot", "bot:" ++ bd.name,
          some ("bot:" ++ bd.name), true⟩] }

def attachSt3 (st : MgrState) (cid : String) (bd : BotDefinition) : MgrState :=
  modifyChannel
    { st with
      tick := st.tick + 1
      bot_instances := aset st.bot_instances cid (attachNewInsts st cid bd) }
    cid (attachSlotF bd)

def attachBody (st : MgrState) (cid : String) (bd : BotDefinition) : Body :=
  .botAttach (attachBotId st cid bd) (computeCodeHash bd)
    (computeManifestHash (bd.manifest.getD [])) bd.name

def attachSt4 (st : MgrState) (cid : String) (bd : BotDefinition) : MgrState :=
  postSystemMessage (attachSt3 st cid bd) cid (attachBody st cid bd)

def attachSt5 (st : MgrState) (cid : String) (bd : BotDefinition) : MgrState :=
  if manifestTruthy bd.manifest then
    postSystemMessage (attachSt4 st cid bd) cid
      (.botManifest (attachBotId st cid bd) bd.name bd.version
        (mGet (bd.manifest.getD []) "summary" (.str ""))
        (mGet (bd.manifest.getD []) "hooks" (.arr []))
        (mGet (bd.manifest.getD []) "emits" (.arr [])))
  else attachSt4 st cid bd

theorem attachBot_ok_eq (st : MgrState) (cid : String) (bd : BotDefinition)
    (h : ¬ ((getChannel st cid).isNone = true)) :
    attachBot st cid bd (.ok ()) =
      (.ok ⟨attachBotId st cid bd, computeCodeHash bd,
        computeManifestHash (bd.manifest.getD [])⟩, attachSt5 st cid bd) := by
  unfold attachBot
  rw [if_neg h]
  rfl

theorem attachSlotF_messages (bd : BotDefinition) (ch : Channel) :
    (attachSlotF bd ch).messages = ch.messages := by
  unfold attachSlotF
  split <;> rfl

/-- Claim C8.  `compute_code_hash` is a pure function of the code content
and `compute_manifest_hash` is insertion-order independent (keys sorted at
every nesting level); `attach_bot` posts in `bot:attach` exactly the
hashes of the attached definition and stores that definition verbatim, so
the recomputation `get_bot_code` would perform (lines 425-426) yields the
same hashes — but `get_bot_code` itself never returns them, failing with
INTERNAL_ERROR for every caller (the missing `_check_membership` bug), so
the claim's "equals the hash returned by get_bot_code" has no successful
call to compare against. -/
theorem C8_hash_canonical :
    (∀ bd₁ bd₂ : BotDefinition, codeContent bd₁ = codeContent bd₂ →
      computeCodeHash bd₁ = computeCodeHash bd₂)
    ∧ (∀ m₁ m₂ : List (String × Json), MEq (.obj m₁) (.obj m₂) →
      computeManifestHash m₁ = computeManifestHash m₂)
    ∧ (∀ (st : MgrState) (cid : String) (bd : BotDefinition) (r : AttachOk)
        (st' : MgrState),
      attachBot st cid bd (.ok ()) = (.ok r, st') →
      r.code_hash = computeCodeHash bd ∧
      r.manifest_hash = computeManifestHash (bd.manifest.getD []) ∧
      (∃ ch, getChannel st' cid = some ch ∧
        ∃ m ∈ ch.messages, m.body = .botAttach r.bot_id r.code_hash r.manifest_hash bd.name) ∧
      (∃ insts, alookup st'.bot_instances cid = some insts ∧
        ∃ inst, (r.bot_id, inst) ∈ insts ∧ inst.bot_def = bd))
    ∧ (∀ (st : MgrState) (sid cid bid : String),
      getBotCodeServer st (some sid) cid bid =
        .error "INTERNAL_ERROR: Failed to get bot code") := by
  refine ⟨?_, ?_, ?_, fun st sid cid bid => rfl⟩
  · intro bd₁ bd₂ hcc
    rw [computeCodeHash_eq, computeCodeHash_eq, hcc]
  · intro m₁ m₂ hm
    unfold computeManifestHash dumpsSorted
    rw [canon_eq_of_MEq hm]
  · intro st cid bd r st' h
    by_cases h1 : ((getChannel st cid).isNone) = true
    · rw [attachBot] at h
      rw [if_pos h1] at h
      exact absurd h (by simp)
    · rw [attachBot_ok_eq st cid bd h1] at h
      cases hch0 : getChannel st cid with
      | none => rw [hch0] at h1; simp at h1
      | some ch0 =>
        simp only [Prod.mk.injEq, Except.ok.injEq] at h
        obtain ⟨hr, hst⟩ := h
        subst hr
        subst hst
        have hch3 : getChannel (attachSt3 st cid bd) cid = some (attachSlotF bd ch0) := by
          unfold attachSt3
          rw [getChannel_modifyChannel, if_pos rfl]
          rw [show getChannel
              { st with
                tick := st.tick + 1
                bot_instances := aset st.bot_instances cid (attachNewInsts st cid bd) } cid
              = some ch0 from hch0]
          rfl
        have hch4 := getChannel_post_self (attachSt3 st cid bd) cid
          (attachBody st cid bd) (attachSlotF bd ch0) hch3
        refine ⟨rfl, rfl, ?_, ?_⟩
        · unfold attachSt5
          by_cases hm : (manifestTruthy bd.manifest) = true
          · rw [if_pos hm]
            refine ⟨_, getChannel_post_self _ cid _ _ hch4, ?_⟩
            refine ⟨_, List.mem_append_left _
              (List.mem_append_right _ (List.mem_singleton.mpr rfl)), ?_⟩
            rfl
          · rw [if_neg hm]
            refine ⟨_, hch4, ?_⟩
            refine ⟨_, List.mem_append_right _ (List.mem_singleton.mpr rfl), ?_⟩
            rfl
        · refine ⟨attachNewInsts st cid bd, ?_, ?_⟩
          · unfold attachSt5
            by_cases hm : (manifestTruthy bd.manifest) = true
            · rw [if_pos hm]
              exact lookup_aset_self st.bot_instances cid (attachNewInsts st cid bd)
            · rw [if_neg hm]
              exact lookup_aset_self st.bot_instances cid (attachNewInsts st cid bd)
          · refine ⟨_, List.mem_append_right _ (List.mem_singleton.mpr rfl), rfl⟩

/-- Witness for C8: a concrete key-permuted manifest pair hashes equally,
and a concrete attach reports exactly the recomputable hashes. -/
theorem C8_witness :
    (computeManifestHash [("b", Json.num 1), ("a", Json.num 2)] =
      computeManifestHash [("a", Json.num 2), ("b", Json.num 1)]) ∧
    (AttachOk.mk "bot_CustomBot_0" (computeCodeHash demoBotDef)
        (computeManifestHash (demoBotDef.manifest.getD []))).code_hash =
      computeCodeHash demoBotDef :=
  ⟨C8_hash_canonical.2.1 _ _
    (MEq.objPerm (List.Perm.swap ("a", Json.num 2) ("b", Json.num 1) [])
      (by decide)
      (MEq.objCons (MEq.num 2) (MEq.objCons (MEq.num 1) MEq.objNil))),
   (C8_hash_canonical.2.2.1 demoPreState "chnB" demoBotDef _
      (attachBot demoPreState "chnB" demoBotDef (.ok ())).2 (by rfl)).1⟩

/-- The exact import allowlist asserted by the spec (§4.4), for comparison
with the source's `allowedModules`.  Modelled from the spec wording, not
from the source. -/
def specImportAllowlist : List String :=
  ["json", "math", "random", "datetime", "time", "re", "base64", "hashlib", "hmac",
   "secrets", "collections", "itertools", "functools", "io", "traceback", "typing",
   "copy", "weakref", "warnings", "email", "socket", "ssl", "http", "urllib",
   "urllib3", "requests", "certifi", "charset_normalizer", "idna"]

/-- Counterexample for C7: the claim says every top-level module outside
the spec's allowlist is rejected, but the source's allowlist additionally
contains `sys`, so an inline bot importing `sys` attaches successfully. -/
theorem C7_counterexample :
    runTopLevelImports ["sys"] = .ok () ∧ specImportAllowlist.contains "sys" = false :=
  ⟨rfl, by decide⟩

/-- Claim C7 (amended): attachment of an inline bot succeeds exactly when
every top-level import's base module passes `_safe_import`; the source
allowlist is the spec's list plus `sys`; importing `os` is rejected with
the ImportError that surfaces as IMPORT_DENIED. -/
theorem C7_import_allowlist :
    (∀ names : List String,
        runTopLevelImports names = .ok () ↔ names.all safeImportAllowed = true)
    ∧ (allowedModules ⊆ specImportAllowlist ++ ["sys"]
        ∧ specImportAllowlist ++ ["sys"] ⊆ allowedModules)
    ∧ runTopLevelImports ["os"] = .error (.importDenied "os") := by
  refine ⟨?_, by decide, rfl⟩
  intro names
  induction names with
  | nil => simp [runTopLevelImports]
  | cons n rest ih =>
    by_cases h : safeImportAllowed n
    · simp [runTopLevelImports, h, ih]
    · simp [runTopLevelImports, h]

end Multiplayer
